import Mathlib

/-!
Verification development for the kafka-pixy HTTP server and its sarama-style
partition consumer (source file: src/server/httpsrv/httpsrv.go).

The Go source is embedded shallowly:
* pure decision logic becomes Lean functions with the same names,
* the per-partition message pump becomes an explicit step machine over
  `PumpState` with an event trace,
* `int32` arithmetic that can overflow (the adaptive fetch size) is modelled
  with explicit two's-complement wrap (`wrap32`); offsets are `Int` (int64
  overflow plays no role in the verified properties),
* fallible Go calls become `Except`/`Option` values, and external
  collaborators (the Kafka client, the broker connection) become oracle
  parameters.
-/

/-- Kafka and sarama error values that appear in the consumer code. `noError`
is sarama.ErrNoError, the zero error code of a fetch-response block. -/
inductive KErr where
  | noError
  | incompleteResponse
  | messageTooLarge
  | offsetOutOfRange
  | unknownTopicOrPartition
  | configurationError (msg : String)
  | other (msg : String)
deriving DecidableEq, Repr

/-- Constant sarama.OffsetNewest. -/
def OffsetNewest : Int := -1

/-- Constant sarama.OffsetOldest. -/
def OffsetOldest : Int := -2

/-- Two's-complement wrap of an integer to the int32 range, modelling Go
int32 overflow. -/
def wrap32 (x : Int) : Int := (x + 2 ^ 31) % 2 ^ 32 - 2 ^ 31

/-- The `(topic, partition)` pair identifying a partition consumer
(Go struct topicPartition). -/
structure TopicPartition where
  topic : String
  partition : Int
deriving DecidableEq, Repr

/-- Fetch-size section of the sarama consumer configuration
(Config.Consumer.Fetch). -/
structure FetchConfig where
  Min : Int
  Default : Int
  Max : Int
deriving DecidableEq, Repr

/-- Retry section of the sarama consumer configuration (Config.Consumer.Retry).
The backoff is a duration; we model time points and durations as `Int`. -/
structure RetryConfig where
  Backoff : Int
deriving DecidableEq, Repr

/-- Error-return section of the sarama consumer configuration
(Config.Consumer.Return). -/
structure ReturnConfig where
  Errors : Bool
deriving DecidableEq, Repr

/-- The slice of sarama.Config the consumer code reads
(Config.Consumer, with MaxWaitTime already converted to milliseconds). -/
structure ConsumerConfig where
  Fetch : FetchConfig
  Retry : RetryConfig
  Return : ReturnConfig
  MaxWaitTime : Int
deriving DecidableEq, Repr

/-- A single Kafka message as it appears inside a fetch-response message set
(sarama MessageBlock entry; key/value bytes are abstract). -/
structure RawMessage where
  Offset : Int
  Key : List Nat
  Value : List Nat
deriving DecidableEq, Repr

/-- One message block of a fetch response; `Messages` models the Go call
msgBlock.Messages(), which expands a possibly compressed block. -/
structure MessageBlock where
  Messages : List RawMessage
deriving DecidableEq, Repr

/-- A fetch-response message set (sarama MessageSet). -/
structure MessageSet where
  Messages : List MessageBlock
  PartialTrailingMessage : Bool
deriving DecidableEq, Repr

/-- One per-partition block of a fetch response
(sarama FetchResponseBlock). -/
structure FetchBlock where
  Err : KErr
  HighWaterMarkOffset : Int
  MsgSet : MessageSet
deriving DecidableEq, Repr

/-- A broker fetch response, an association list of per-partition blocks
(sarama FetchResponse). -/
structure FetchResponse where
  Blocks : List (TopicPartition × FetchBlock)
deriving DecidableEq, Repr

/-- Lookup of the block for a `(topic, partition)`, modelling
response.GetBlock(topic, partition). -/
def FetchResponse.GetBlock (r : FetchResponse) (tp : TopicPartition) : Option FetchBlock :=
  (r.Blocks.find? fun b => decide (b.1 = tp)).map Prod.snd

/-- The result sent back to a partition consumer by the broker consumer
(Go struct fetchResult). -/
structure fetchResult where
  Response : Option FetchResponse
  Err : Option KErr
deriving DecidableEq, Repr

/-- A message handed to the user (Go struct ConsumerMessage). -/
structure ConsumerMessage where
  Key : List Nat
  Value : List Nat
  Topic : String
  Partition : Int
  Offset : Int
  HighWaterMark : Int
deriving DecidableEq, Repr

/-- The mutable per-pump fields of a partition consumer
(partitionConsumer.offset, .fetchSize, .lag). -/
structure PCState where
  offset : Int
  fetchSize : Int
  lag : Int
deriving DecidableEq, Repr

/-- Abstract state of the pullMessages pump goroutine: the partition
consumer fields, the queue of parsed messages not yet pushed to the user
(fetchedMessages from currMessageIdx on), and whether the pump has exited
its loop (reached the done label). -/
structure PumpState where
  pcs : PCState
  pending : List ConsumerMessage
  donePump : Bool
deriving DecidableEq, Repr

/-- Construction of a partition consumer (consumer.spawnPartitionConsumer):
the worker starts at the chosen offset with fetchSize = Fetch.Default and
zero lag, with no messages queued and the pump running. -/
def spawnPartitionConsumer (cfg : ConsumerConfig) (offset : Int) : PumpState :=
  { pcs := { offset := offset, fetchSize := cfg.Fetch.Default, lag := 0 }
    pending := []
    donePump := false }

/-- The Kafka client operations the root consumer uses; GetOffset may fail
(sarama Client.GetOffset). -/
structure Client where
  GetOffset : String → Int → Int → Except KErr Int

/-- Translation of consumer.chooseStartingOffset: probe the newest and the
oldest offset and clamp the requested offset into the current range, with
OffsetNewest/OffsetOldest resolved to the probed values. -/
def chooseStartingOffset (c : Client) (topic : String) (partition : Int)
    (offset : Int) : Except KErr Int :=
  match c.GetOffset topic partition OffsetNewest with
  | .error e => .error e
  | .ok newestOffset =>
    match c.GetOffset topic partition OffsetOldest with
    | .error e => .error e
    | .ok oldestOffset =>
      if offset = OffsetNewest ∨ offset > newestOffset then .ok newestOffset
      else if offset = OffsetOldest ∨ offset < oldestOffset then .ok oldestOffset
      else .ok offset

/-- Translation of consumer.ConsumePartition: choose the starting offset,
reject a duplicate subscription, otherwise spawn the worker at the concrete
offset and return the worker together with that offset. `children` is the
domain of the consumer.children map. -/
def ConsumePartition (c : Client) (cfg : ConsumerConfig)
    (children : List TopicPartition) (topic : String) (partition : Int)
    (offset : Int) : Except KErr (PumpState × Int) :=
  match chooseStartingOffset c topic partition offset with
  | .error e => .error e
  | .ok concreteOffset =>
    if (⟨topic, partition⟩ : TopicPartition) ∈ children then
      .error (.configurationError "That topic/partition is already being consumed")
    else
      .ok (spawnPartitionConsumer cfg concreteOffset, concreteOffset)

/-- Error type returned by proxy.Consume as seen by the HTTP handler; the
handler switches on the dynamic type of the error, so each alternative is a
distinct constructor. -/
inductive ConsumeError where
  | errRequestTimeout (msg : String)
  | errTooManyRequests (msg : String)
  | errUnknownTopicOrPartition
  | errOther (msg : String)
deriving DecidableEq, Repr

/-- Textual rendering of a consume error (err.Error() in Go). -/
def ConsumeError.message : ConsumeError → String
  | .errRequestTimeout m => m
  | .errTooManyRequests m => m
  | .errUnknownTopicOrPartition => "kafka server: unknown topic or partition"
  | .errOther m => m

/-- Body of the HTTP response written by handleConsume: either
errorHTTPResponse or consumeHTTPResponse. -/
inductive HTTPBody where
  | errorHTTPResponse (msg : String)
  | consumeHTTPResponse (Key Value : List Nat) (Partition Offset : Int)
deriving DecidableEq, Repr

/-- Translation of the error-classification and success tail of
T.handleConsume: given the outcome of pxy.Consume, produce the HTTP status
code and body. The Go switch has exactly three cases: ErrRequestTimeout,
ErrTooManyRequests and default. -/
def handleConsume (res : Except ConsumeError ConsumerMessage) : Nat × HTTPBody :=
  match res with
  | .error err =>
    let status : Nat :=
      match err with
      | .errRequestTimeout _ => 408
      | .errTooManyRequests _ => 429
      | _ => 500
    (status, .errorHTTPResponse err.message)
  | .ok consMsg =>
    (200, .consumeHTTPResponse consMsg.Key consMsg.Value consMsg.Partition consMsg.Offset)

/-- The `(path pattern, method)` pairs registered by New via
router.HandleFunc(...).Methods(...), in source order (httpsrv.go lines
89-102). -/
def routeTable : List (String × String) :=
  [ ("/proxies/\x7bproxy\x7d/topics/\x7btopic\x7d/messages", "POST")
  , ("/topics/\x7btopic\x7d/messages", "POST")
  , ("/proxies/\x7bproxy\x7d/topics/\x7btopic\x7d/messages", "POST")
  , ("/topics/\x7btopic\x7d/messages", "POST")
  , ("/proxies/\x7bproxy\x7d/topics/\x7btopic\x7d/messages", "POST")
  , ("/topics/\x7btopic\x7d/messages", "GET")
  , ("/proxies/\x7bproxy\x7d/topics/\x7btopic\x7d/messages", "GET")
  , ("/topics/\x7btopic\x7d/offsets", "GET")
  , ("/proxies/\x7bproxy\x7d/topics/\x7btopic\x7d/offsets", "GET")
  , ("/topics/\x7btopic\x7d/offsets", "POST")
  , ("/proxies/\x7bproxy\x7d/topics/\x7btopic\x7d/offsets", "POST")
  , ("/topics/\x7btopic\x7d/consumers", "GET")
  , ("/proxies/\x7bproxy\x7d/topics/\x7btopic\x7d/consumers", "GET")
  , ("/_ping", "GET") ]

/-- C2: chooseStartingOffset resolves the requested offset in the order the
Go switch does: OffsetNewest or strictly above the newest offset gives the
newest offset; failing that, OffsetOldest or strictly below the oldest
offset gives the oldest offset; otherwise the requested value is kept.
ConsumePartition hands exactly this concrete offset to the caller and uses
it as the spawned worker's starting offset. -/
theorem chooseStartingOffset_spec (c : Client) (cfg : ConsumerConfig)
    (children : List TopicPartition) (topic : String) (partition : Int)
    (offset newestOffset oldestOffset : Int)
    (hn : c.GetOffset topic partition OffsetNewest = .ok newestOffset)
    (ho : c.GetOffset topic partition OffsetOldest = .ok oldestOffset) :
    ((offset = OffsetNewest ∨ offset > newestOffset) →
      chooseStartingOffset c topic partition offset = .ok newestOffset) ∧
    (¬(offset = OffsetNewest ∨ offset > newestOffset) →
      (offset = OffsetOldest ∨ offset < oldestOffset) →
      chooseStartingOffset c topic partition offset = .ok oldestOffset) ∧
    (¬(offset = OffsetNewest ∨ offset > newestOffset) →
      ¬(offset = OffsetOldest ∨ offset < oldestOffset) →
      chooseStartingOffset c topic partition offset = .ok offset) ∧
    ((⟨topic, partition⟩ : TopicPartition) ∉ children →
      ∀ concreteOffset,
        chooseStartingOffset c topic partition offset = .ok concreteOffset →
        ConsumePartition c cfg children topic partition offset =
          .ok (spawnPartitionConsumer cfg concreteOffset, concreteOffset) ∧
        (spawnPartitionConsumer cfg concreteOffset).pcs.offset = concreteOffset) := by
  refine ⟨?_, ?_, ?_, ?_⟩
  · intro h
    simp [chooseStartingOffset, hn, ho, h]
  · intro h1 h2
    simp [chooseStartingOffset, hn, ho, h1, h2]
  · intro h1 h2
    simp [chooseStartingOffset, hn, ho, h1, h2]
  · intro hmem concreteOffset hco
    constructor
    · simp [ConsumePartition, hco, hmem]
    · rfl

/-- Witness for chooseStartingOffset_spec at a concrete client: topic range
[oldest 3, newest 10], request 7 is kept, request 12 clamps to 10, request
OffsetOldest resolves to 3, and ConsumePartition returns the chosen offset
and seeds the worker with it. -/
theorem chooseStartingOffset_spec_witness :
    (chooseStartingOffset
        ⟨fun _ _ w => if w = OffsetNewest then .ok 10 else .ok 3⟩ "t" 0 7 = .ok 7) ∧
    (chooseStartingOffset
        ⟨fun _ _ w => if w = OffsetNewest then .ok 10 else .ok 3⟩ "t" 0 12 = .ok 10) ∧
    (chooseStartingOffset
        ⟨fun _ _ w => if w = OffsetNewest then .ok 10 else .ok 3⟩ "t" 0 OffsetOldest = .ok 3) ∧
    (ConsumePartition
        ⟨fun _ _ w => if w = OffsetNewest then .ok 10 else .ok 3⟩
        ⟨⟨1, 1024, 4096⟩, ⟨100⟩, ⟨true⟩, 250⟩ [] "t" 0 7 =
      .ok (spawnPartitionConsumer ⟨⟨1, 1024, 4096⟩, ⟨100⟩, ⟨true⟩, 250⟩ 7, 7)) := by
  have h := chooseStartingOffset_spec
    ⟨fun _ _ w => if w = OffsetNewest then .ok 10 else .ok 3⟩
    ⟨⟨1, 1024, 4096⟩, ⟨100⟩, ⟨true⟩, 250⟩ [] "t" 0
  refine ⟨(h 7 10 3 (by rfl) (by rfl)).2.2.1 (by decide) (by decide),
          (h 12 10 3 (by rfl) (by rfl)).1 (by decide),
          (h OffsetOldest 10 3 (by rfl) (by rfl)).2.1 (by decide) (by decide),
          ((h 7 10 3 (by rfl) (by rfl)).2.2.2 (by simp) 7
            ((h 7 10 3 (by rfl) (by rfl)).2.2.1 (by decide) (by decide))).1⟩

/-- C8 counterexample: the claim says an unknown topic or partition yields
status 404, but handleConsume has no such case: the unknown-topic error
falls into the default branch and yields 500, which is not 404. -/
theorem handleConsume_unknownTopic_counterexample :
    (handleConsume (.error .errUnknownTopicOrPartition)).1 = 500 ∧
    (handleConsume (.error .errUnknownTopicOrPartition)).1 ≠ 404 := by
  decide

/-- C8 amended: handleConsume maps ErrRequestTimeout to 408 and
ErrTooManyRequests to 429; every other error, including an unknown topic or
partition, takes the default branch and yields 500. On success it responds
200 with the message's key, value, partition and offset. -/
theorem handleConsume_spec (s : String) (m : ConsumerMessage) :
    (handleConsume (.error (.errRequestTimeout s))).1 = 408 ∧
    (handleConsume (.error (.errTooManyRequests s))).1 = 429 ∧
    (handleConsume (.error .errUnknownTopicOrPartition)).1 = 500 ∧
    (handleConsume (.error (.errOther s))).1 = 500 ∧
    handleConsume (.ok m) =
      (200, .consumeHTTPResponse m.Key m.Value m.Partition m.Offset) := by
  exact ⟨rfl, rfl, rfl, rfl, rfl⟩

/-- C9: the route table built by New registers some (path pattern, method)
pair at least twice; the produce route with the proxy prefix is registered
three times and the bare produce route twice. -/
theorem routeTable_duplicate_registration :
    ∃ p m, 2 ≤ routeTable.count (p, m) := by
  exact ⟨"/proxies/\x7bproxy\x7d/topics/\x7btopic\x7d/messages", "POST", by decide⟩

/-- Result of partitionConsumer.parseFetchResult: the updated pump fields,
the errors handed to reportError during parsing, and the Go return pair
(messages, error) as an `Except`. -/
structure ParseResult where
  state : PCState
  reported : List KErr
  out : Except KErr (List ConsumerMessage)
deriving Repr

/-- Translation of partitionConsumer.reportError: the error is offered to
the errors channel only when Config.Consumer.Return.Errors is set (a full
channel additionally drops it; the list models the offered errors). -/
def reportError (cfg : ConsumerConfig) (e : KErr) : List KErr :=
  if cfg.Return.Errors then [e] else []

/-- Construction of the user-visible ConsumerMessage from a raw fetched
message and the block high-water mark (parseFetchResult loop body). -/
def mkConsumerMessage (tp : TopicPartition) (hwm : Int) (msg : RawMessage) :
    ConsumerMessage :=
  { Topic := tp.topic, Partition := tp.partition, Key := msg.Key,
    Value := msg.Value, Offset := msg.Offset, HighWaterMark := hwm }

/-- One iteration of the message-filter loop in parseFetchResult: a message
whose offset is strictly below the current offset is discarded, any other
message is appended and the lag becomes hwm minus its offset. -/
def filterStep (tp : TopicPartition) (hwm curOffset : Int)
    (acc : List ConsumerMessage × Int) (msg : RawMessage) :
    List ConsumerMessage × Int :=
  if msg.Offset < curOffset then acc
  else (acc.1 ++ [mkConsumerMessage tp hwm msg], hwm - msg.Offset)

/-- Flattening of the nested iteration over message blocks and their inner
messages in parseFetchResult. -/
def MessageSet.allMessages (ms : MessageSet) : List RawMessage :=
  (ms.Messages.map MessageBlock.Messages).flatten

/-- Translation of partitionConsumer.parseFetchResult. Branch order follows
the source: transport error, missing response, missing block, block error,
empty message set (with the adaptive fetch-size logic on the
partial-trailing flag, in wrapping int32 arithmetic), and finally the
filter loop with the fetch-size reset. -/
def parseFetchResult (cfg : ConsumerConfig) (tp : TopicPartition) (s : PCState)
    (fr : fetchResult) : ParseResult :=
  match fr.Err with
  | some e => ⟨s, [], .error e⟩
  | none =>
  match fr.Response with
  | none => ⟨s, [], .error .incompleteResponse⟩
  | some response =>
  match response.GetBlock tp with
  | none => ⟨s, [], .error .incompleteResponse⟩
  | some block =>
  if block.Err ≠ KErr.noError then ⟨s, [], .error block.Err⟩
  else if block.MsgSet.Messages = [] then
    if block.MsgSet.PartialTrailingMessage then
      if cfg.Fetch.Max > 0 ∧ s.fetchSize = cfg.Fetch.Max then
        ⟨{ s with offset := s.offset + 1 }, reportError cfg .messageTooLarge, .ok []⟩
      else
        let doubled := wrap32 (2 * s.fetchSize)
        let clamped :=
          if cfg.Fetch.Max > 0 ∧ doubled > cfg.Fetch.Max then cfg.Fetch.Max else doubled
        ⟨{ s with fetchSize := clamped }, [], .ok []⟩
    else ⟨s, [], .ok []⟩
  else
    let acc := block.MsgSet.allMessages.foldl
      (filterStep tp block.HighWaterMarkOffset s.offset) ([], s.lag)
    if acc.1 = [] then
      ⟨{ s with fetchSize := cfg.Fetch.Default, lag := acc.2 }, [], .error .incompleteResponse⟩
    else
      ⟨{ s with fetchSize := cfg.Fetch.Default, lag := acc.2 }, [], .ok acc.1⟩

/-- Characterization of the filter loop: its message accumulator is the
input filtered to offsets at or above the current offset, mapped to
ConsumerMessages, appended to the initial accumulator. -/
theorem foldl_filterStep_fst (tp : TopicPartition) (hwm curOffset : Int)
    (l : List RawMessage) :
    ∀ acc : List ConsumerMessage × Int,
      (l.foldl (filterStep tp hwm curOffset) acc).1 =
        acc.1 ++ (l.filter fun m => decide (curOffset ≤ m.Offset)).map
          (mkConsumerMessage tp hwm) := by
  induction l with
  | nil => intro acc; simp
  | cons m l ih =>
    intro acc
    rw [List.foldl_cons, ih]
    unfold filterStep
    by_cases h : m.Offset < curOffset
    · rw [if_pos h]
      simp [List.filter_cons, not_le.mpr h]
    · rw [if_neg h]
      simp [List.filter_cons, not_lt.mp h]

/-- C5: parseFetchResult classifies fetch results in source order: a
transport error is propagated; a missing response or a missing block for
the worker's (topic, partition) yields ErrIncompleteResponse; a Kafka-level
block error is propagated; and a non-empty message set whose messages are
all filtered out (offset below the worker's current offset) yields
ErrIncompleteResponse. -/
theorem parseFetchResult_classification (cfg : ConsumerConfig)
    (tp : TopicPartition) (s : PCState) (fr : fetchResult) :
    (∀ e, fr.Err = some e → parseFetchResult cfg tp s fr = ⟨s, [], .error e⟩) ∧
    (fr.Err = none → fr.Response = none →
      parseFetchResult cfg tp s fr = ⟨s, [], .error .incompleteResponse⟩) ∧
    (∀ response, fr.Err = none → fr.Response = some response →
      response.GetBlock tp = none →
      parseFetchResult cfg tp s fr = ⟨s, [], .error .incompleteResponse⟩) ∧
    (∀ response block, fr.Err = none → fr.Response = some response →
      response.GetBlock tp = some block → block.Err ≠ .noError →
      parseFetchResult cfg tp s fr = ⟨s, [], .error block.Err⟩) ∧
    (∀ response block, fr.Err = none → fr.Response = some response →
      response.GetBlock tp = some block → block.Err = .noError →
      block.MsgSet.Messages ≠ [] →
      (∀ m ∈ block.MsgSet.allMessages, m.Offset < s.offset) →
      (parseFetchResult cfg tp s fr).out = .error .incompleteResponse) := by
  refine ⟨?_, ?_, ?_, ?_, ?_⟩
  · intro e he
    simp [parseFetchResult, he]
  · intro he hr
    simp [parseFetchResult, he, hr]
  · intro response he hr hb
    simp [parseFetchResult, he, hr, hb]
  · intro response block he hr hb hbe
    simp [parseFetchResult, he, hr, hb, hbe]
  · intro response block he hr hb hbe hne hall
    have hfilter :
        (block.MsgSet.allMessages.filter fun m => decide (s.offset ≤ m.Offset)) = [] := by
      rw [List.filter_eq_nil_iff]
      intro m hm
      simpa using not_le.mpr (hall m hm)
    simp [parseFetchResult, he, hr, hb, hbe, hne, foldl_filterStep_fst, hfilter]

/-- C4 counterexample: with Max = 2^31 - 1 > 0 and fetchSize = 2^30
(strictly below Max, reachable by ordinary doublings from a power-of-two
default), an empty partial-trailing response does not set fetchSize to the
clamped double min (2 * 2^30) Max: the int32 product 2^31 wraps to -2^31
and the clamp (wrapped value greater than Max) never fires, so the claimed
doubling clamped to fetch.Max is false on this part of the claim's
scope. -/
theorem parseFetchResult_doubling_counterexample :
    (0:Int) < 2 ^ 31 - 1 ∧ (2:Int) ^ 30 < 2 ^ 31 - 1 ∧
    (parseFetchResult ⟨⟨1, 1024, 2 ^ 31 - 1⟩, ⟨100⟩, ⟨true⟩, 250⟩ ⟨"t", 0⟩
        ⟨7, 2 ^ 30, 0⟩
        ⟨some ⟨[(⟨"t", 0⟩, ⟨.noError, 0, ⟨[], true⟩⟩)]⟩, none⟩).state.fetchSize
      = -(2 ^ 31) ∧
    (parseFetchResult ⟨⟨1, 1024, 2 ^ 31 - 1⟩, ⟨100⟩, ⟨true⟩, 250⟩ ⟨"t", 0⟩
        ⟨7, 2 ^ 30, 0⟩
        ⟨some ⟨[(⟨"t", 0⟩, ⟨.noError, 0, ⟨[], true⟩⟩)]⟩, none⟩).state.fetchSize
      ≠ min (2 * 2 ^ 30) (2 ^ 31 - 1) := by
  decide

/-- C4 amended: on an empty message set carrying the partial-trailing
flag, when fetchSize already equals Fetch.Max > 0, parseFetchResult
reports ErrMessageTooLarge, advances the offset by exactly one, leaves
fetchSize alone and returns an empty result with no error; when fetchSize
is below Fetch.Max it skips nothing and doubles fetchSize in wrapping
int32 arithmetic, clamping to Fetch.Max exactly when the wrapped double
exceeds Fetch.Max — which equals min (2 * fetchSize) Fetch.Max whenever
additionally 0 < fetchSize and 2 * fetchSize < 2^31, so that the doubling
cannot overflow int32. -/
theorem parseFetchResult_partialTrailing (cfg : ConsumerConfig)
    (tp : TopicPartition) (s : PCState) (fr : fetchResult)
    (response : FetchResponse) (block : FetchBlock)
    (hErr : fr.Err = none) (hResp : fr.Response = some response)
    (hBlock : response.GetBlock tp = some block)
    (hbe : block.Err = .noError)
    (hempty : block.MsgSet.Messages = [])
    (hflag : block.MsgSet.PartialTrailingMessage = true) :
    (cfg.Fetch.Max > 0 → s.fetchSize = cfg.Fetch.Max → cfg.Return.Errors = true →
      parseFetchResult cfg tp s fr =
        ⟨{ s with offset := s.offset + 1 }, [.messageTooLarge], .ok []⟩) ∧
    (cfg.Fetch.Max > 0 → s.fetchSize < cfg.Fetch.Max →
      parseFetchResult cfg tp s fr =
        ⟨{ s with fetchSize :=
            if cfg.Fetch.Max > 0 ∧ wrap32 (2 * s.fetchSize) > cfg.Fetch.Max
            then cfg.Fetch.Max else wrap32 (2 * s.fetchSize) }, [], .ok []⟩) ∧
    (cfg.Fetch.Max > 0 → s.fetchSize < cfg.Fetch.Max → 0 < s.fetchSize →
      2 * s.fetchSize < 2 ^ 31 →
      parseFetchResult cfg tp s fr =
        ⟨{ s with fetchSize := min (2 * s.fetchSize) cfg.Fetch.Max }, [], .ok []⟩) := by
  refine ⟨?_, ?_, ?_⟩
  · intro hmax hfs hret
    simp [parseFetchResult, hErr, hResp, hBlock, hbe, hempty, hflag, hmax, hfs,
      reportError, hret]
  · intro hmax hfs
    have hne : ¬(cfg.Fetch.Max > 0 ∧ s.fetchSize = cfg.Fetch.Max) := by
      rintro ⟨-, h⟩
      omega
    simp [parseFetchResult, hErr, hResp, hBlock, hbe, hempty, hflag, hne]
  · intro hmax hfs hpos hnoovf
    have hwrap : wrap32 (2 * s.fetchSize) = 2 * s.fetchSize := by
      unfold wrap32
      have h1 : (0:Int) ≤ 2 * s.fetchSize + 2 ^ 31 := by omega
      have h2 : 2 * s.fetchSize + 2 ^ 31 < 2 ^ 32 := by omega
      rw [Int.emod_eq_of_lt h1 h2]
      omega
    have hne : ¬(cfg.Fetch.Max > 0 ∧ s.fetchSize = cfg.Fetch.Max) := by
      rintro ⟨-, h⟩
      omega
    have hmin :
        (if cfg.Fetch.Max > 0 ∧ 2 * s.fetchSize > cfg.Fetch.Max then cfg.Fetch.Max
          else 2 * s.fetchSize) = min (2 * s.fetchSize) cfg.Fetch.Max := by
      rcases le_or_lt (2 * s.fetchSize) cfg.Fetch.Max with h | h
      · rw [if_neg (by omega), min_eq_left h]
      · rw [if_pos ⟨hmax, h⟩, min_eq_right (le_of_lt h)]
    simp [parseFetchResult, hErr, hResp, hBlock, hbe, hempty, hflag, hne, hwrap, hmin]

/-- Witness for parseFetchResult_partialTrailing: with Default 1024 and Max
4096, a worker at fetchSize 4096 skips the oversized message at offset 7
(reporting MessageTooLarge) and a worker at fetchSize 1024 doubles to
min 2048 4096 = 2048; with Max = 2^31 - 1, a worker at fetchSize 2^30
takes the unconditional doubling clause and wraps to -2^31. -/
theorem parseFetchResult_partialTrailing_witness :
    parseFetchResult ⟨⟨1, 1024, 4096⟩, ⟨100⟩, ⟨true⟩, 250⟩ ⟨"t", 0⟩
        ⟨7, 4096, 0⟩ ⟨some ⟨[(⟨"t", 0⟩, ⟨.noError, 0, ⟨[], true⟩⟩)]⟩, none⟩ =
      ⟨⟨8, 4096, 0⟩, [.messageTooLarge], .ok []⟩ ∧
    parseFetchResult ⟨⟨1, 1024, 4096⟩, ⟨100⟩, ⟨true⟩, 250⟩ ⟨"t", 0⟩
        ⟨7, 1024, 0⟩ ⟨some ⟨[(⟨"t", 0⟩, ⟨.noError, 0, ⟨[], true⟩⟩)]⟩, none⟩ =
      ⟨⟨7, 2048, 0⟩, [], .ok []⟩ ∧
    parseFetchResult ⟨⟨1, 1024, 2 ^ 31 - 1⟩, ⟨100⟩, ⟨true⟩, 250⟩ ⟨"t", 0⟩
        ⟨7, 2 ^ 30, 0⟩ ⟨some ⟨[(⟨"t", 0⟩, ⟨.noError, 0, ⟨[], true⟩⟩)]⟩, none⟩ =
      ⟨⟨7, -(2 ^ 31), 0⟩, [], .ok []⟩ := by
  have h1 := parseFetchResult_partialTrailing ⟨⟨1, 1024, 4096⟩, ⟨100⟩, ⟨true⟩, 250⟩
    ⟨"t", 0⟩ ⟨7, 4096, 0⟩ ⟨some ⟨[(⟨"t", 0⟩, ⟨.noError, 0, ⟨[], true⟩⟩)]⟩, none⟩
    ⟨[(⟨"t", 0⟩, ⟨.noError, 0, ⟨[], true⟩⟩)]⟩ ⟨.noError, 0, ⟨[], true⟩⟩
    rfl rfl (by decide) rfl rfl rfl
  have h2 := parseFetchResult_partialTrailing ⟨⟨1, 1024, 4096⟩, ⟨100⟩, ⟨true⟩, 250⟩
    ⟨"t", 0⟩ ⟨7, 1024, 0⟩ ⟨some ⟨[(⟨"t", 0⟩, ⟨.noError, 0, ⟨[], true⟩⟩)]⟩, none⟩
    ⟨[(⟨"t", 0⟩, ⟨.noError, 0, ⟨[], true⟩⟩)]⟩ ⟨.noError, 0, ⟨[], true⟩⟩
    rfl rfl (by decide) rfl rfl rfl
  have h3 := parseFetchResult_partialTrailing ⟨⟨1, 1024, 2 ^ 31 - 1⟩, ⟨100⟩, ⟨true⟩, 250⟩
    ⟨"t", 0⟩ ⟨7, 2 ^ 30, 0⟩ ⟨some ⟨[(⟨"t", 0⟩, ⟨.noError, 0, ⟨[], true⟩⟩)]⟩, none⟩
    ⟨[(⟨"t", 0⟩, ⟨.noError, 0, ⟨[], true⟩⟩)]⟩ ⟨.noError, 0, ⟨[], true⟩⟩
    rfl rfl (by decide) rfl rfl rfl
  refine ⟨h1.1 (by decide) rfl rfl,
    h2.2.2 (by decide) (by decide) (by decide) (by decide), ?_⟩
  rw [h3.2.1 (by decide) (by decide)]
  rfl

/-- Witness for parseFetchResult_classification: a transport error is
propagated and a fully filtered non-empty message set yields
ErrIncompleteResponse, at concrete inputs. -/
theorem parseFetchResult_classification_witness :
    parseFetchResult ⟨⟨1, 1024, 4096⟩, ⟨100⟩, ⟨true⟩, 250⟩ ⟨"t", 0⟩ ⟨7, 1024, 0⟩
        ⟨none, some (.other "io")⟩ = ⟨⟨7, 1024, 0⟩, [], .error (.other "io")⟩ ∧
    (parseFetchResult ⟨⟨1, 1024, 4096⟩, ⟨100⟩, ⟨true⟩, 250⟩ ⟨"t", 0⟩ ⟨7, 1024, 0⟩
        ⟨some ⟨[(⟨"t", 0⟩, ⟨.noError, 20, ⟨[⟨[⟨5, [], []⟩, ⟨6, [], []⟩]⟩], false⟩⟩)]⟩,
          none⟩).out = .error .incompleteResponse := by
  have h := parseFetchResult_classification ⟨⟨1, 1024, 4096⟩, ⟨100⟩, ⟨true⟩, 250⟩
    ⟨"t", 0⟩ ⟨7, 1024, 0⟩
  constructor
  · exact (h ⟨none, some (.other "io")⟩).1 (.other "io") rfl
  · exact (h ⟨some ⟨[(⟨"t", 0⟩, ⟨.noError, 20, ⟨[⟨[⟨5, [], []⟩, ⟨6, [], []⟩]⟩], false⟩⟩)]⟩,
        none⟩).2.2.2.2
      ⟨[(⟨"t", 0⟩, ⟨.noError, 20, ⟨[⟨[⟨5, [], []⟩, ⟨6, [], []⟩]⟩], false⟩⟩)]⟩
      ⟨.noError, 20, ⟨[⟨[⟨5, [], []⟩, ⟨6, [], []⟩]⟩], false⟩⟩
      rfl rfl (by decide) rfl (by decide) (by decide)

/-- Observable events of the pullMessages pump: a message pushed on the
messages channel, an error offered to the errors channel, a fetch request
sent to the assigned broker consumer, and the three channel closures at the
done label. -/
inductive PumpEvent where
  | deliver (m : ConsumerMessage)
  | report (e : KErr)
  | sendFetch (topic : String) (partition offset maxBytes lag : Int)
  | closeMessages
  | closeErrors
  | closeClosed
deriving DecidableEq, Repr

/-- The select branches of the pullMessages loop, as pump inputs: a broker
assignment (nil or not), the outbound fetch-request send firing, a fetch
result arriving, the messages-channel send firing, the reassign retry timer
firing, and closure of closingCh. -/
inductive PumpInput where
  | assignment (ok : Bool)
  | sendFetch
  | fetchResult (r : fetchResult)
  | pushMessage
  | retryTimer
  | closing
deriving DecidableEq, Repr

/-- The close sequence executed after the done label of pullMessages:
close(messagesCh); close(errorsCh); close(closedCh), in that order. -/
def closeSeq : List PumpEvent := [.closeMessages, .closeErrors, .closeClosed]

/-- One iteration of the pullMessages select loop. An exited pump does
nothing. Assignment and timer branches only manipulate channel arming and
reassignment, which leave the modelled state unchanged. The outbound
request branch sends the worker's current (topic, partition, offset,
fetchSize, lag). The closing branch jumps to done. The messages-channel
branch fires only while parsed messages are queued; it pushes the cursor
message and sets offset to one past it. The fetch-result branch fires only
when no messages are queued (the pump never has both a pending result and
queued messages); it parses, reports any error, exits on OffsetOutOfRange,
and otherwise queues the parsed messages. -/
def pumpStep (cfg : ConsumerConfig) (tp : TopicPartition) (s : PumpState)
    (i : PumpInput) : PumpState × List PumpEvent :=
  if s.donePump then (s, [])
  else
    match i with
    | .assignment _ => (s, [])
    | .retryTimer => (s, [])
    | .sendFetch =>
        (s, [.sendFetch tp.topic tp.partition s.pcs.offset s.pcs.fetchSize s.pcs.lag])
    | .closing => ({ s with donePump := true }, closeSeq)
    | .pushMessage =>
        match s.pending with
        | [] => (s, [])
        | m :: rest =>
            ({ s with pcs := { s.pcs with offset := m.Offset + 1 }, pending := rest },
              [.deliver m])
    | .fetchResult r =>
        match s.pending with
        | _ :: _ => (s, [])
        | [] =>
          let pr := parseFetchResult cfg tp s.pcs r
          match pr.out with
          | .error e =>
            if e = .offsetOutOfRange then
              ({ s with pcs := pr.state, donePump := true },
                (reportError cfg e).map .report ++ closeSeq)
            else
              ({ s with pcs := pr.state }, (reportError cfg e).map .report)
          | .ok msgs =>
              ({ s with pcs := pr.state, pending := msgs }, pr.reported.map .report)

/-- Repeated pump iterations over a list of inputs, accumulating the event
trace. -/
def pumpRun (cfg : ConsumerConfig) (tp : TopicPartition) :
    PumpState → List PumpInput → PumpState × List PumpEvent
  | s, [] => (s, [])
  | s, i :: is =>
    let step := pumpStep cfg tp s i
    let rest := pumpRun cfg tp step.1 is
    (rest.1, step.2 ++ rest.2)

/-- Test for the three close events. -/
def isCloseEvent : PumpEvent → Bool
  | .closeMessages => true
  | .closeErrors => true
  | .closeClosed => true
  | _ => false

/-- A trace without close events. -/
def closeFree (tr : List PumpEvent) : Prop := ∀ e ∈ tr, isCloseEvent e = false

/-- An exited pump performs no further steps and emits no further events. -/
theorem pumpStep_done (cfg : ConsumerConfig) (tp : TopicPartition)
    (s : PumpState) (i : PumpInput) (h : s.donePump = true) :
    pumpStep cfg tp s i = (s, []) := by
  simp [pumpStep, h]

/-- A run from an exited pump is empty. -/
theorem pumpRun_done (cfg : ConsumerConfig) (tp : TopicPartition)
    (is : List PumpInput) (s : PumpState) (h : s.donePump = true) :
    pumpRun cfg tp s is = (s, []) := by
  induction is with
  | nil => rfl
  | cons i is ih => simp [pumpRun, pumpStep_done cfg tp s i h, ih]

/-- Error reports are not close events. -/
theorem closeFree_report_map (cfg : ConsumerConfig) (e : KErr) :
    closeFree ((reportError cfg e).map PumpEvent.report) := by
  intro x hx
  rcases List.mem_map.mp hx with ⟨e', -, rfl⟩
  rfl

/-- Single-step close shape: a live pump either stays live emitting no
close event, or exits emitting a close-free prefix followed by exactly the
close sequence. -/
theorem pumpStep_close_shape (cfg : ConsumerConfig) (tp : TopicPartition)
    (s : PumpState) (i : PumpInput) (h : s.donePump = false) :
    ((pumpStep cfg tp s i).1.donePump = false ∧ closeFree (pumpStep cfg tp s i).2) ∨
    ((pumpStep cfg tp s i).1.donePump = true ∧
      ∃ t, (pumpStep cfg tp s i).2 = t ++ closeSeq ∧ closeFree t) := by
  cases i with
  | assignment b => exact Or.inl ⟨by simp [pumpStep, h], by simp [pumpStep, h, closeFree]⟩
  | retryTimer => exact Or.inl ⟨by simp [pumpStep, h], by simp [pumpStep, h, closeFree]⟩
  | sendFetch =>
    refine Or.inl ⟨by simp [pumpStep, h], ?_⟩
    simp only [pumpStep, h, Bool.false_eq_true, if_false]
    intro e he
    simp only [List.mem_singleton] at he
    subst he
    rfl
  | closing =>
    refine Or.inr ⟨by simp [pumpStep, h], [], by simp [pumpStep, h], ?_⟩
    intro e he
    simp at he
  | pushMessage =>
    cases hp : s.pending with
    | nil => exact Or.inl ⟨by simp [pumpStep, h, hp], by simp [pumpStep, h, hp, closeFree]⟩
    | cons m rest =>
      refine Or.inl ⟨by simp [pumpStep, h, hp], ?_⟩
      simp only [pumpStep, h, Bool.false_eq_true, if_false, hp]
      intro e he
      simp only [List.mem_singleton] at he
      subst he
      rfl
  | fetchResult r =>
    cases hp : s.pending with
    | cons m rest => exact Or.inl ⟨by simp [pumpStep, h, hp], by simp [pumpStep, h, hp, closeFree]⟩
    | nil =>
      cases ho : (parseFetchResult cfg tp s.pcs r).out with
      | ok msgs =>
        refine Or.inl ⟨by simp [pumpStep, h, hp, ho], ?_⟩
        simp only [pumpStep, h, Bool.false_eq_true, if_false, hp, ho]
        exact fun x hx => by
          rcases List.mem_map.mp hx with ⟨e', -, rfl⟩
          rfl
      | error e =>
        by_cases he : e = KErr.offsetOutOfRange
        · subst he
          refine Or.inr ⟨by simp [pumpStep, h, hp, ho],
            (reportError cfg KErr.offsetOutOfRange).map PumpEvent.report,
            by simp [pumpStep, h, hp, ho],
            closeFree_report_map cfg KErr.offsetOutOfRange⟩
        · exact Or.inl ⟨by simp [pumpStep, h, hp, ho, he],
            by simpa [pumpStep, h, hp, ho, he] using closeFree_report_map cfg e⟩

/-- Run-level close shape: starting from a live pump, either the pump is
still live and the trace has no close event, or the pump has exited and the
trace is a close-free prefix followed by exactly one close sequence. -/
theorem pumpRun_close_shape (cfg : ConsumerConfig) (tp : TopicPartition) :
    ∀ (is : List PumpInput) (s : PumpState), s.donePump = false →
      ((pumpRun cfg tp s is).1.donePump = false ∧ closeFree (pumpRun cfg tp s is).2) ∨
      ((pumpRun cfg tp s is).1.donePump = true ∧
        ∃ t, (pumpRun cfg tp s is).2 = t ++ closeSeq ∧ closeFree t) := by
  intro is
  induction is with
  | nil =>
    intro s h
    exact Or.inl ⟨h, by intro e he; simp [pumpRun] at he⟩
  | cons i is ih =>
    intro s h
    rcases pumpStep_close_shape cfg tp s i h with ⟨hd, hcf⟩ | ⟨hd, t, ht, htcf⟩
    · rcases ih (pumpStep cfg tp s i).1 hd with ⟨hd', hcf'⟩ | ⟨hd', t', ht', htcf'⟩
      · refine Or.inl ⟨by simpa [pumpRun] using hd', ?_⟩
        simp only [pumpRun]
        intro e he
        rcases List.mem_append.mp he with h1 | h1
        · exact hcf e h1
        · exact hcf' e h1
      · refine Or.inr ⟨by simpa [pumpRun] using hd', (pumpStep cfg tp s i).2 ++ t', ?_, ?_⟩
        · simp [pumpRun, ht']
        · intro e he
          rcases List.mem_append.mp he with h1 | h1
          · exact hcf e h1
          · exact htcf' e h1
    · have hrest := pumpRun_done cfg tp is (pumpStep cfg tp s i).1 hd
      refine Or.inr ⟨by simp [pumpRun, hrest, hd], t, ?_, htcf⟩
      simp [pumpRun, hrest, ht]

/-- C7: a live pump exits exactly on closure of closingCh or on a parse
error equal to ErrOffsetOutOfRange (with no messages queued); on the
OffsetOutOfRange exit the error is first offered to the errors channel and
then the close sequence runs, and on the closing exit the close sequence
runs alone. Over any run from a freshly spawned worker, the trace ends the
moment the pump exits with closing of the messages channel, then the errors
channel, then the closed channel — each exactly once, with no close event
before that and no event at all after it; if the pump has not exited, no
channel has been closed. -/
theorem pullMessages_termination (cfg : ConsumerConfig) (tp : TopicPartition) :
    (∀ (s : PumpState) (i : PumpInput), s.donePump = false →
      ((pumpStep cfg tp s i).1.donePump = true ↔
        (i = .closing ∨ ∃ r, i = .fetchResult r ∧ s.pending = [] ∧
          (parseFetchResult cfg tp s.pcs r).out = .error .offsetOutOfRange))) ∧
    (∀ (s : PumpState) (r : fetchResult), s.donePump = false → s.pending = [] →
      (parseFetchResult cfg tp s.pcs r).out = .error .offsetOutOfRange →
      (pumpStep cfg tp s (.fetchResult r)).2 =
        (reportError cfg .offsetOutOfRange).map PumpEvent.report ++ closeSeq) ∧
    (∀ (s : PumpState), s.donePump = false →
      (pumpStep cfg tp s .closing).2 = closeSeq) ∧
    (∀ (offset : Int) (is : List PumpInput),
      ((pumpRun cfg tp (spawnPartitionConsumer cfg offset) is).1.donePump = true →
        ∃ t, (pumpRun cfg tp (spawnPartitionConsumer cfg offset) is).2 = t ++ closeSeq ∧
          closeFree t) ∧
      ((pumpRun cfg tp (spawnPartitionConsumer cfg offset) is).1.donePump = false →
        closeFree (pumpRun cfg tp (spawnPartitionConsumer cfg offset) is).2)) := by
  refine ⟨?_, ?_, ?_, ?_⟩
  · intro s i h
    cases i with
    | assignment b => simp [pumpStep, h]
    | retryTimer => simp [pumpStep, h]
    | sendFetch => simp [pumpStep, h]
    | closing => simp [pumpStep, h]
    | pushMessage =>
      cases hp : s.pending with
      | nil => simp [pumpStep, h, hp]
      | cons m rest => simp [pumpStep, h, hp]
    | fetchResult r =>
      cases hp : s.pending with
      | cons m rest => simp [pumpStep, h, hp]
      | nil =>
        cases ho : (parseFetchResult cfg tp s.pcs r).out with
        | ok msgs => simp [pumpStep, h, hp, ho]
        | error e =>
          by_cases he : e = KErr.offsetOutOfRange
          · subst he
            simp [pumpStep, h, hp, ho]
          · simp [pumpStep, h, hp, ho, he]
  · intro s r h hp ho
    simp [pumpStep, h, hp, ho]
  · intro s h
    simp [pumpStep, h]
  · intro offset is
    have h := pumpRun_close_shape cfg tp is (spawnPartitionConsumer cfg offset) rfl
    constructor
    · intro hd
      rcases h with ⟨hd', -⟩ | ⟨-, t, ht, htcf⟩
      · rw [hd] at hd'
        exact absurd hd' (by simp)
      · exact ⟨t, ht, htcf⟩
    · intro hd
      rcases h with ⟨-, hcf⟩ | ⟨hd', -⟩
      · exact hcf
      · rw [hd] at hd'
        exact absurd hd' (by simp)

/-- Witness for pullMessages_termination: a freshly spawned worker receiving
only the closing signal exits and its whole trace is exactly the close
sequence; the single step on closing emits the close sequence. -/
theorem pullMessages_termination_witness :
    (pumpRun ⟨⟨1, 1024, 4096⟩, ⟨100⟩, ⟨true⟩, 250⟩ ⟨"t", 0⟩
        (spawnPartitionConsumer ⟨⟨1, 1024, 4096⟩, ⟨100⟩, ⟨true⟩, 250⟩ 5)
        [.closing]).1.donePump = true ∧
    (pumpRun ⟨⟨1, 1024, 4096⟩, ⟨100⟩, ⟨true⟩, 250⟩ ⟨"t", 0⟩
        (spawnPartitionConsumer ⟨⟨1, 1024, 4096⟩, ⟨100⟩, ⟨true⟩, 250⟩ 5)
        [.closing]).2 = closeSeq := by
  have h := (pullMessages_termination ⟨⟨1, 1024, 4096⟩, ⟨100⟩, ⟨true⟩, 250⟩
    ⟨"t", 0⟩).2.2.1 (spawnPartitionConsumer ⟨⟨1, 1024, 4096⟩, ⟨100⟩, ⟨true⟩, 250⟩ 5) rfl
  constructor
  · decide
  · simpa [pumpRun, pumpRun_done] using h

/-- Messages pushed on the messages channel during a trace, in order. -/
def deliveredMessages (tr : List PumpEvent) : List ConsumerMessage :=
  tr.filterMap fun e => match e with | .deliver m => some m | _ => none

/-- Delivered messages split over trace concatenation. -/
theorem deliveredMessages_append (t1 t2 : List PumpEvent) :
    deliveredMessages (t1 ++ t2) = deliveredMessages t1 ++ deliveredMessages t2 :=
  List.filterMap_append t1 t2 _

/-- Report and close events deliver nothing. -/
theorem deliveredMessages_report_map (l : List KErr) :
    deliveredMessages (l.map PumpEvent.report) = [] := by
  induction l with
  | nil => rfl
  | cons e l ih =>
    rw [List.map_cons]
    rw [show deliveredMessages (PumpEvent.report e :: l.map PumpEvent.report) =
      deliveredMessages (l.map PumpEvent.report) from rfl]
    exact ih

/-- Well-formedness of a pump input, the Kafka broker contract: the message
set of the block addressed to this worker lists offsets in strictly
increasing order. All other inputs are unconstrained. -/
def wfInput (tp : TopicPartition) : PumpInput → Prop
  | .fetchResult r =>
    match r.Response with
    | some response =>
      match response.GetBlock tp with
      | some block =>
        block.MsgSet.allMessages.Pairwise (fun a b => a.Offset < b.Offset)
      | none => True
    | none => True
  | _ => True


/-- Reduction of parseFetchResult on a transport error. -/
theorem parse_err_eq (cfg : ConsumerConfig) (tp : TopicPartition) (s : PCState)
    (fr : fetchResult) (e : KErr) (hE : fr.Err = some e) :
    parseFetchResult cfg tp s fr = ⟨s, [], .error e⟩ := by
  simp [parseFetchResult, hE]

/-- Reduction of parseFetchResult on a missing response. -/
theorem parse_noResponse_eq (cfg : ConsumerConfig) (tp : TopicPartition) (s : PCState)
    (fr : fetchResult) (hE : fr.Err = none) (hR : fr.Response = none) :
    parseFetchResult cfg tp s fr = ⟨s, [], .error .incompleteResponse⟩ := by
  simp [parseFetchResult, hE, hR]

/-- Reduction of parseFetchResult on a missing block. -/
theorem parse_noBlock_eq (cfg : ConsumerConfig) (tp : TopicPartition) (s : PCState)
    (fr : fetchResult) (response : FetchResponse) (hE : fr.Err = none)
    (hR : fr.Response = some response) (hB : response.GetBlock tp = none) :
    parseFetchResult cfg tp s fr = ⟨s, [], .error .incompleteResponse⟩ := by
  simp [parseFetchResult, hE, hR, hB]

/-- Reduction of parseFetchResult on a Kafka-level block error. -/
theorem parse_blockErr_eq (cfg : ConsumerConfig) (tp : TopicPartition) (s : PCState)
    (fr : fetchResult) (response : FetchResponse) (block : FetchBlock)
    (hE : fr.Err = none) (hR : fr.Response = some response)
    (hB : response.GetBlock tp = some block) (h1 : block.Err ≠ .noError) :
    parseFetchResult cfg tp s fr = ⟨s, [], .error block.Err⟩ := by
  simp [parseFetchResult, hE, hR, hB, h1]

/-- Reduction of parseFetchResult on an empty message set without the
partial-trailing flag. -/
theorem parse_empty_noflag_eq (cfg : ConsumerConfig) (tp : TopicPartition) (s : PCState)
    (fr : fetchResult) (response : FetchResponse) (block : FetchBlock)
    (hE : fr.Err = none) (hR : fr.Response = some response)
    (hB : response.GetBlock tp = some block) (h1 : block.Err = .noError)
    (h2 : block.MsgSet.Messages = []) (h3 : block.MsgSet.PartialTrailingMessage = false) :
    parseFetchResult cfg tp s fr = ⟨s, [], .ok []⟩ := by
  simp [parseFetchResult, hE, hR, hB, h1, h2, h3]

/-- Reduction of parseFetchResult on the oversized-message skip branch. -/
theorem parse_empty_skip_eq (cfg : ConsumerConfig) (tp : TopicPartition) (s : PCState)
    (fr : fetchResult) (response : FetchResponse) (block : FetchBlock)
    (hE : fr.Err = none) (hR : fr.Response = some response)
    (hB : response.GetBlock tp = some block) (h1 : block.Err = .noError)
    (h2 : block.MsgSet.Messages = []) (h3 : block.MsgSet.PartialTrailingMessage = true)
    (h4 : cfg.Fetch.Max > 0 ∧ s.fetchSize = cfg.Fetch.Max) :
    parseFetchResult cfg tp s fr =
      ⟨{ s with offset := s.offset + 1 }, reportError cfg .messageTooLarge, .ok []⟩ := by
  simp [parseFetchResult, hE, hR, hB, h1, h2, h3, h4]

/-- Reduction of parseFetchResult on the fetch-size doubling branch. -/
theorem parse_empty_double_eq (cfg : ConsumerConfig) (tp : TopicPartition) (s : PCState)
    (fr : fetchResult) (response : FetchResponse) (block : FetchBlock)
    (hE : fr.Err = none) (hR : fr.Response = some response)
    (hB : response.GetBlock tp = some block) (h1 : block.Err = .noError)
    (h2 : block.MsgSet.Messages = []) (h3 : block.MsgSet.PartialTrailingMessage = true)
    (h4 : ¬(cfg.Fetch.Max > 0 ∧ s.fetchSize = cfg.Fetch.Max)) :
    parseFetchResult cfg tp s fr =
      ⟨{ s with fetchSize :=
          if cfg.Fetch.Max > 0 ∧ wrap32 (2 * s.fetchSize) > cfg.Fetch.Max then cfg.Fetch.Max
          else wrap32 (2 * s.fetchSize) }, [], .ok []⟩ := by
  simp [parseFetchResult, hE, hR, hB, h1, h2, h3, h4]

/-- Reduction of parseFetchResult on a non-empty message set: reset the
fetch size, filter the messages against the current offset, and fail with
ErrIncompleteResponse when nothing survives. -/
theorem parse_nonempty_eq (cfg : ConsumerConfig) (tp : TopicPartition) (s : PCState)
    (fr : fetchResult) (response : FetchResponse) (block : FetchBlock)
    (hE : fr.Err = none) (hR : fr.Response = some response)
    (hB : response.GetBlock tp = some block) (h1 : block.Err = .noError)
    (h2 : block.MsgSet.Messages ≠ []) :
    parseFetchResult cfg tp s fr =
      (if ((block.MsgSet.allMessages.filter fun m => decide (s.offset ≤ m.Offset)).map
            (mkConsumerMessage tp block.HighWaterMarkOffset)) = [] then
        ⟨{ s with
            fetchSize := cfg.Fetch.Default
            lag := (block.MsgSet.allMessages.foldl
              (filterStep tp block.HighWaterMarkOffset s.offset) ([], s.lag)).2 }, [],
          .error .incompleteResponse⟩
      else
        ⟨{ s with
            fetchSize := cfg.Fetch.Default
            lag := (block.MsgSet.allMessages.foldl
              (filterStep tp block.HighWaterMarkOffset s.offset) ([], s.lag)).2 }, [],
          .ok ((block.MsgSet.allMessages.filter fun m => decide (s.offset ≤ m.Offset)).map
            (mkConsumerMessage tp block.HighWaterMarkOffset))⟩) := by
  have hfst := foldl_filterStep_fst tp block.HighWaterMarkOffset s.offset
    block.MsgSet.allMessages ([], s.lag)
  simp only [List.nil_append] at hfst
  simp [parseFetchResult, hE, hR, hB, h1, h2, hfst]

/-- Exhaustive branch analysis of parseFetchResult: it returns an error
with the state untouched, skips one oversized offset, adjusts only the
fetch size on an empty set, or filters a non-empty message set against the
current offset (possibly failing with ErrIncompleteResponse). -/
theorem parseFetchResult_branches (cfg : ConsumerConfig) (tp : TopicPartition)
    (s : PCState) (fr : fetchResult) :
    (∃ e, parseFetchResult cfg tp s fr = ⟨s, [], .error e⟩) ∨
    (parseFetchResult cfg tp s fr =
      ⟨{ s with offset := s.offset + 1 }, reportError cfg .messageTooLarge, .ok []⟩) ∨
    (∃ fs, parseFetchResult cfg tp s fr = ⟨{ s with fetchSize := fs }, [], .ok []⟩) ∨
    (∃ response block,
      fr.Err = none ∧ fr.Response = some response ∧ response.GetBlock tp = some block ∧
      parseFetchResult cfg tp s fr =
        (if ((block.MsgSet.allMessages.filter fun m => decide (s.offset ≤ m.Offset)).map
              (mkConsumerMessage tp block.HighWaterMarkOffset)) = [] then
          ⟨{ s with
              fetchSize := cfg.Fetch.Default
              lag := (block.MsgSet.allMessages.foldl
                (filterStep tp block.HighWaterMarkOffset s.offset) ([], s.lag)).2 }, [],
            .error .incompleteResponse⟩
        else
          ⟨{ s with
              fetchSize := cfg.Fetch.Default
              lag := (block.MsgSet.allMessages.foldl
                (filterStep tp block.HighWaterMarkOffset s.offset) ([], s.lag)).2 }, [],
            .ok ((block.MsgSet.allMessages.filter fun m => decide (s.offset ≤ m.Offset)).map
              (mkConsumerMessage tp block.HighWaterMarkOffset))⟩)) := by
  rcases hE : fr.Err with _ | e
  · rcases hR : fr.Response with _ | response
    · exact Or.inl ⟨_, parse_noResponse_eq cfg tp s fr hE hR⟩
    · rcases hB : response.GetBlock tp with _ | block
      · exact Or.inl ⟨_, parse_noBlock_eq cfg tp s fr response hE hR hB⟩
      · by_cases h1 : block.Err = KErr.noError
        · by_cases h2 : block.MsgSet.Messages = []
          · by_cases h3 : block.MsgSet.PartialTrailingMessage = true
            · by_cases h4 : cfg.Fetch.Max > 0 ∧ s.fetchSize = cfg.Fetch.Max
              · exact Or.inr (Or.inl
                  (parse_empty_skip_eq cfg tp s fr response block hE hR hB h1 h2 h3 h4))
              · exact Or.inr (Or.inr (Or.inl ⟨_,
                  parse_empty_double_eq cfg tp s fr response block hE hR hB h1 h2 h3 h4⟩))
            · have h3' : block.MsgSet.PartialTrailingMessage = false :=
                Bool.not_eq_true _ ▸ eq_false_of_ne_true h3
              refine Or.inr (Or.inr (Or.inl ⟨s.fetchSize, ?_⟩))
              have := parse_empty_noflag_eq cfg tp s fr response block hE hR hB h1 h2 h3'
              simpa using this
          · exact Or.inr (Or.inr (Or.inr ⟨response, block, rfl, rfl, hB,
              parse_nonempty_eq cfg tp s fr response block hE hR hB h1 h2⟩))
        · exact Or.inl ⟨_, parse_blockErr_eq cfg tp s fr response block hE hR hB h1⟩
  · exact Or.inl ⟨_, parse_err_eq cfg tp s fr e hE⟩


/-- Reduction of a live pump step on an assignment. -/
theorem pumpStep_assignment_eq (cfg : ConsumerConfig) (tp : TopicPartition)
    (s : PumpState) (b : Bool) (hd : s.donePump = false) :
    pumpStep cfg tp s (.assignment b) = (s, []) := by
  simp [pumpStep, hd]

/-- Reduction of a live pump step on the retry timer. -/
theorem pumpStep_retryTimer_eq (cfg : ConsumerConfig) (tp : TopicPartition)
    (s : PumpState) (hd : s.donePump = false) :
    pumpStep cfg tp s .retryTimer = (s, []) := by
  simp [pumpStep, hd]

/-- Reduction of a live pump step on sending a fetch request: the request
carries the worker's current offset, fetch size and lag. -/
theorem pumpStep_sendFetch_eq (cfg : ConsumerConfig) (tp : TopicPartition)
    (s : PumpState) (hd : s.donePump = false) :
    pumpStep cfg tp s .sendFetch =
      (s, [.sendFetch tp.topic tp.partition s.pcs.offset s.pcs.fetchSize s.pcs.lag]) := by
  simp [pumpStep, hd]

/-- Reduction of a live pump step on closingCh closure. -/
theorem pumpStep_closing_eq (cfg : ConsumerConfig) (tp : TopicPartition)
    (s : PumpState) (hd : s.donePump = false) :
    pumpStep cfg tp s .closing = ({ s with donePump := true }, closeSeq) := by
  simp [pumpStep, hd]

/-- Reduction of a live pump step on pushMessage with nothing queued. -/
theorem pumpStep_push_nil_eq (cfg : ConsumerConfig) (tp : TopicPartition)
    (s : PumpState) (hd : s.donePump = false) (hp : s.pending = []) :
    pumpStep cfg tp s .pushMessage = (s, []) := by
  simp [pumpStep, hd, hp]

/-- Reduction of a live pump step on pushMessage with a queued message: the
message is delivered and the offset becomes one past it. -/
theorem pumpStep_push_cons_eq (cfg : ConsumerConfig) (tp : TopicPartition)
    (s : PumpState) (m : ConsumerMessage) (rest : List ConsumerMessage)
    (hd : s.donePump = false) (hp : s.pending = m :: rest) :
    pumpStep cfg tp s .pushMessage =
      ({ s with pcs := { s.pcs with offset := m.Offset + 1 }, pending := rest },
        [.deliver m]) := by
  simp [pumpStep, hd, hp]

/-- Reduction of a live pump step on a fetch result while messages are
still queued (cannot happen in a real run; the step ignores it). -/
theorem pumpStep_fetch_busy_eq (cfg : ConsumerConfig) (tp : TopicPartition)
    (s : PumpState) (r : fetchResult) (m : ConsumerMessage)
    (rest : List ConsumerMessage) (hd : s.donePump = false)
    (hp : s.pending = m :: rest) :
    pumpStep cfg tp s (.fetchResult r) = (s, []) := by
  simp [pumpStep, hd, hp]

/-- Reduction of a live pump step on a fetch result whose parse fails with
OffsetOutOfRange: report, then exit. -/
theorem pumpStep_fetch_oor_eq (cfg : ConsumerConfig) (tp : TopicPartition)
    (s : PumpState) (r : fetchResult) (hd : s.donePump = false)
    (hp : s.pending = [])
    (ho : (parseFetchResult cfg tp s.pcs r).out = .error .offsetOutOfRange) :
    pumpStep cfg tp s (.fetchResult r) =
      ({ s with pcs := (parseFetchResult cfg tp s.pcs r).state, donePump := true },
        (reportError cfg .offsetOutOfRange).map PumpEvent.report ++ closeSeq) := by
  simp [pumpStep, hd, hp, ho]

/-- Reduction of a live pump step on a fetch result whose parse fails with
any other error: report and continue. -/
theorem pumpStep_fetch_err_eq (cfg : ConsumerConfig) (tp : TopicPartition)
    (s : PumpState) (r : fetchResult) (e : KErr) (hd : s.donePump = false)
    (hp : s.pending = []) (ho : (parseFetchResult cfg tp s.pcs r).out = .error e)
    (he : e ≠ .offsetOutOfRange) :
    pumpStep cfg tp s (.fetchResult r) =
      ({ s with pcs := (parseFetchResult cfg tp s.pcs r).state },
        (reportError cfg e).map PumpEvent.report) := by
  simp [pumpStep, hd, hp, ho, he]

/-- Reduction of a live pump step on a successfully parsed fetch result:
queue the parsed messages. -/
theorem pumpStep_fetch_ok_eq (cfg : ConsumerConfig) (tp : TopicPartition)
    (s : PumpState) (r : fetchResult) (msgs : List ConsumerMessage)
    (hd : s.donePump = false) (hp : s.pending = [])
    (ho : (parseFetchResult cfg tp s.pcs r).out = .ok msgs) :
    pumpStep cfg tp s (.fetchResult r) =
      ({ s with pcs := (parseFetchResult cfg tp s.pcs r).state, pending := msgs },
        (parseFetchResult cfg tp s.pcs r).reported.map PumpEvent.report) := by
  simp [pumpStep, hd, hp, ho]

/-- The close sequence delivers no message. -/
theorem deliveredMessages_closeSeq : deliveredMessages closeSeq = [] := rfl

/-- The parser never moves the worker's offset backwards: every branch
leaves it unchanged except the oversized-message skip, which adds one. -/
theorem parseFetchResult_offset_mono (cfg : ConsumerConfig) (tp : TopicPartition)
    (s : PCState) (fr : fetchResult) :
    s.offset ≤ (parseFetchResult cfg tp s fr).state.offset := by
  rcases parseFetchResult_branches cfg tp s fr with ⟨e, heq⟩ | heq | ⟨fs, heq⟩ |
    ⟨response, block, -, -, -, heq⟩
  · rw [heq]
  · rw [heq]
    show s.offset ≤ s.offset + 1
    omega
  · rw [heq]
  · rw [heq]
    split
    · exact le_refl s.offset
    · exact le_refl s.offset

/-- Messages returned by a successful parse sit at or above the parser's
resulting offset, and inherit strict offset order from a well-formed broker
message set. -/
theorem parseFetchResult_ok_bounds (cfg : ConsumerConfig) (tp : TopicPartition)
    (s : PCState) (fr : fetchResult) (msgs : List ConsumerMessage)
    (h : (parseFetchResult cfg tp s fr).out = .ok msgs) :
    (∀ m ∈ msgs, (parseFetchResult cfg tp s fr).state.offset ≤ m.Offset) ∧
    (wfInput tp (.fetchResult fr) → msgs.Pairwise (fun a b => a.Offset < b.Offset)) := by
  rcases parseFetchResult_branches cfg tp s fr with ⟨e, heq⟩ | heq | ⟨fs, heq⟩ |
    ⟨response, block, hE, hR, hB, heq⟩
  · rw [heq] at h
    simp at h
  · rw [heq] at h
    simp at h
    subst h
    exact ⟨fun m hm => absurd hm (List.not_mem_nil m), fun _ => List.Pairwise.nil⟩
  · rw [heq] at h
    simp at h
    subst h
    exact ⟨fun m hm => absurd hm (List.not_mem_nil m), fun _ => List.Pairwise.nil⟩
  · rw [heq] at h
    by_cases hnil : ((block.MsgSet.allMessages.filter fun m =>
        decide (s.offset ≤ m.Offset)).map (mkConsumerMessage tp block.HighWaterMarkOffset)) = []
    · rw [if_pos hnil] at h
      simp at h
    · rw [if_neg hnil] at h
      simp at h
      rw [heq, if_neg hnil]
      constructor
      · intro m hm
        rw [← h] at hm
        rcases List.mem_map.mp hm with ⟨raw, hraw, rfl⟩
        have hkeep := (List.mem_filter.mp hraw).2
        simp only [decide_eq_true_eq] at hkeep
        simpa [mkConsumerMessage] using hkeep
      · intro hwf
        have hall : block.MsgSet.allMessages.Pairwise (fun a b => a.Offset < b.Offset) := by
          simpa [wfInput, hR, hB] using hwf
        rw [← h, List.pairwise_map]
        exact List.Pairwise.sublist (List.filter_sublist _) hall

/-- Invariant of the pump relating the worker state to the messages already
delivered: the offset never went below the starting offset, queued messages
are strictly sorted starting at or above the current offset, and delivered
messages are strictly sorted, at or above the starting offset and strictly
below the current offset. -/
def pumpInv (initOffset : Int) (s : PumpState) (delivered : List ConsumerMessage) : Prop :=
  initOffset ≤ s.pcs.offset ∧
  s.pending.Pairwise (fun a b => a.Offset < b.Offset) ∧
  (∀ m ∈ s.pending, s.pcs.offset ≤ m.Offset) ∧
  delivered.Pairwise (fun a b => a.Offset < b.Offset) ∧
  (∀ d ∈ delivered, initOffset ≤ d.Offset) ∧
  (∀ d ∈ delivered, d.Offset < s.pcs.offset)

/-- One pump step preserves the delivery invariant, for a well-formed
input. -/
theorem pumpStep_inv (cfg : ConsumerConfig) (tp : TopicPartition) (initOffset : Int)
    (s : PumpState) (i : PumpInput) (delivered : List ConsumerMessage)
    (hwf : wfInput tp i) (hinv : pumpInv initOffset s delivered) :
    pumpInv initOffset (pumpStep cfg tp s i).1
      (delivered ++ deliveredMessages (pumpStep cfg tp s i).2) := by
  obtain ⟨h1, h2, h3, h4, h5, h6⟩ := hinv
  cases hd : s.donePump with
  | true =>
    rw [pumpStep_done cfg tp s i hd]
    rw [show deliveredMessages [] = [] from rfl, List.append_nil]
    exact ⟨h1, h2, h3, h4, h5, h6⟩
  | false =>
  cases i with
  | assignment b =>
    rw [pumpStep_assignment_eq cfg tp s b hd]
    rw [show deliveredMessages [] = [] from rfl, List.append_nil]
    exact ⟨h1, h2, h3, h4, h5, h6⟩
  | retryTimer =>
    rw [pumpStep_retryTimer_eq cfg tp s hd]
    rw [show deliveredMessages [] = [] from rfl, List.append_nil]
    exact ⟨h1, h2, h3, h4, h5, h6⟩
  | sendFetch =>
    rw [pumpStep_sendFetch_eq cfg tp s hd]
    rw [show deliveredMessages
      [.sendFetch tp.topic tp.partition s.pcs.offset s.pcs.fetchSize s.pcs.lag] = []
      from rfl, List.append_nil]
    exact ⟨h1, h2, h3, h4, h5, h6⟩
  | closing =>
    rw [pumpStep_closing_eq cfg tp s hd]
    rw [deliveredMessages_closeSeq, List.append_nil]
    exact ⟨h1, h2, h3, h4, h5, h6⟩
  | pushMessage =>
    cases hp : s.pending with
    | nil =>
      rw [pumpStep_push_nil_eq cfg tp s hd hp]
      rw [show deliveredMessages [] = [] from rfl, List.append_nil]
      exact ⟨h1, h2, h3, h4, h5, h6⟩
    | cons m rest =>
      rw [pumpStep_push_cons_eq cfg tp s m rest hd hp]
      rw [show deliveredMessages [PumpEvent.deliver m] = [m] from rfl]
      rw [hp] at h2 h3
      have hm : s.pcs.offset ≤ m.Offset := h3 m (List.mem_cons_self m rest)
      have hpw := List.pairwise_cons.mp h2
      refine ⟨?_, hpw.2, ?_, ?_, ?_, ?_⟩
      · show initOffset ≤ m.Offset + 1
        omega
      · intro m' hm'
        have hlt := hpw.1 m' hm'
        show m.Offset + 1 ≤ m'.Offset
        omega
      · rw [List.pairwise_append]
        refine ⟨h4, List.pairwise_singleton _ m, ?_⟩
        intro d hdmem x hx
        rw [List.mem_singleton] at hx
        subst hx
        exact lt_of_lt_of_le (h6 d hdmem) hm
      · intro d hdmem
        rcases List.mem_append.mp hdmem with hold | hnew
        · exact h5 d hold
        · rw [List.mem_singleton] at hnew
          subst hnew
          omega
      · intro d hdmem
        rcases List.mem_append.mp hdmem with hold | hnew
        · have hlt := h6 d hold
          show d.Offset < m.Offset + 1
          omega
        · rw [List.mem_singleton] at hnew
          subst hnew
          exact lt_add_one _
  | fetchResult r =>
    have hmono := parseFetchResult_offset_mono cfg tp s.pcs r
    cases hp : s.pending with
    | cons m rest =>
      rw [pumpStep_fetch_busy_eq cfg tp s r m rest hd hp]
      rw [show deliveredMessages [] = [] from rfl, List.append_nil]
      exact ⟨h1, h2, h3, h4, h5, h6⟩
    | nil =>
      rcases ho : (parseFetchResult cfg tp s.pcs r).out with e | msgs
      · by_cases he : e = KErr.offsetOutOfRange
        · subst he
          rw [pumpStep_fetch_oor_eq cfg tp s r hd hp ho]
          rw [show deliveredMessages ((reportError cfg KErr.offsetOutOfRange).map
              PumpEvent.report ++ closeSeq) = [] by
            rw [deliveredMessages_append, deliveredMessages_report_map,
              deliveredMessages_closeSeq]
            rfl, List.append_nil]
          refine ⟨le_trans h1 hmono, h2, ?_, h4, h5, ?_⟩
          · intro m hm
            have hm' : m ∈ s.pending := hm
            rw [hp] at hm'
            exact absurd hm' (List.not_mem_nil m)
          · intro d hdmem
            exact lt_of_lt_of_le (h6 d hdmem) hmono
        · rw [pumpStep_fetch_err_eq cfg tp s r e hd hp ho he]
          rw [deliveredMessages_report_map, List.append_nil]
          refine ⟨le_trans h1 hmono, h2, ?_, h4, h5, ?_⟩
          · intro m hm
            have hm' : m ∈ s.pending := hm
            rw [hp] at hm'
            exact absurd hm' (List.not_mem_nil m)
          · intro d hdmem
            exact lt_of_lt_of_le (h6 d hdmem) hmono
      · have hbounds := parseFetchResult_ok_bounds cfg tp s.pcs r msgs ho
        rw [pumpStep_fetch_ok_eq cfg tp s r msgs hd hp ho]
        rw [deliveredMessages_report_map, List.append_nil]
        exact ⟨le_trans h1 hmono, hbounds.2 hwf, hbounds.1, h4, h5,
          fun d hdmem => lt_of_lt_of_le (h6 d hdmem) hmono⟩

/-- The delivery invariant is preserved by whole runs over well-formed
inputs. -/
theorem pumpRun_inv (cfg : ConsumerConfig) (tp : TopicPartition) (initOffset : Int) :
    ∀ (is : List PumpInput) (s : PumpState) (delivered : List ConsumerMessage),
      (∀ i ∈ is, wfInput tp i) → pumpInv initOffset s delivered →
      pumpInv initOffset (pumpRun cfg tp s is).1
        (delivered ++ deliveredMessages (pumpRun cfg tp s is).2) := by
  intro is
  induction is with
  | nil =>
    intro s delivered _ hinv
    rw [show pumpRun cfg tp s [] = (s, []) from rfl]
    rw [show deliveredMessages [] = [] from rfl, List.append_nil]
    exact hinv
  | cons i is ih =>
    intro s delivered hwf hinv
    have hstep := pumpStep_inv cfg tp initOffset s i delivered
      (hwf i (List.mem_cons_self i is)) hinv
    have hrest := ih (pumpStep cfg tp s i).1
      (delivered ++ deliveredMessages (pumpStep cfg tp s i).2)
      (fun j hj => hwf j (List.mem_cons_of_mem i hj)) hstep
    have hruneq : pumpRun cfg tp s (i :: is) =
        ((pumpRun cfg tp (pumpStep cfg tp s i).1 is).1,
          (pumpStep cfg tp s i).2 ++ (pumpRun cfg tp (pumpStep cfg tp s i).1 is).2) := rfl
    rw [hruneq]
    rw [deliveredMessages_append, ← List.append_assoc]
    exact hrest

/-- C1: over the pump's steps the worker's offset is monotone
nondecreasing; a push of a queued message m delivers exactly m and sets the
offset to one past m; parsing discards every message whose offset is
strictly below the worker's current offset, so parsed messages sit at or
above it; and over any run of a worker spawned at concreteOffset on
well-formed broker responses, delivered offsets are strictly increasing and
every delivered offset (and the final worker offset) is at least
concreteOffset. -/
theorem partitionConsumer_monotone_delivery (cfg : ConsumerConfig)
    (tp : TopicPartition) (concreteOffset : Int) :
    (∀ (s : PumpState) (i : PumpInput) (delivered : List ConsumerMessage),
      pumpInv concreteOffset s delivered →
      s.pcs.offset ≤ (pumpStep cfg tp s i).1.pcs.offset) ∧
    (∀ (s : PumpState) (m : ConsumerMessage) (rest : List ConsumerMessage),
      s.donePump = false → s.pending = m :: rest →
      (pumpStep cfg tp s .pushMessage).1.pcs.offset = m.Offset + 1 ∧
      (pumpStep cfg tp s .pushMessage).2 = [.deliver m]) ∧
    (∀ (s : PCState) (fr : fetchResult) (msgs : List ConsumerMessage),
      (parseFetchResult cfg tp s fr).out = .ok msgs →
      ∀ m ∈ msgs, s.offset ≤ m.Offset) ∧
    (∀ is : List PumpInput, (∀ i ∈ is, wfInput tp i) →
      (deliveredMessages
        (pumpRun cfg tp (spawnPartitionConsumer cfg concreteOffset) is).2).Pairwise
          (fun a b => a.Offset < b.Offset) ∧
      (∀ d ∈ deliveredMessages
          (pumpRun cfg tp (spawnPartitionConsumer cfg concreteOffset) is).2,
        concreteOffset ≤ d.Offset) ∧
      concreteOffset ≤
        (pumpRun cfg tp (spawnPartitionConsumer cfg concreteOffset) is).1.pcs.offset) := by
  refine ⟨?_, ?_, ?_, ?_⟩
  · intro s i delivered hinv
    obtain ⟨h1, h2, h3, h4, h5, h6⟩ := hinv
    cases hd : s.donePump with
    | true =>
      rw [pumpStep_done cfg tp s i hd]
    | false =>
      cases i with
      | assignment b => rw [pumpStep_assignment_eq cfg tp s b hd]
      | retryTimer => rw [pumpStep_retryTimer_eq cfg tp s hd]
      | sendFetch => rw [pumpStep_sendFetch_eq cfg tp s hd]
      | closing => rw [pumpStep_closing_eq cfg tp s hd]
      | pushMessage =>
        cases hp : s.pending with
        | nil => rw [pumpStep_push_nil_eq cfg tp s hd hp]
        | cons m rest =>
          rw [pumpStep_push_cons_eq cfg tp s m rest hd hp]
          have hm : s.pcs.offset ≤ m.Offset := h3 m (by rw [hp]; exact List.mem_cons_self m rest)
          show s.pcs.offset ≤ m.Offset + 1
          omega
      | fetchResult r =>
        have hmono := parseFetchResult_offset_mono cfg tp s.pcs r
        cases hp : s.pending with
        | cons m rest => rw [pumpStep_fetch_busy_eq cfg tp s r m rest hd hp]
        | nil =>
          rcases ho : (parseFetchResult cfg tp s.pcs r).out with e | msgs
          · by_cases he : e = KErr.offsetOutOfRange
            · subst he
              rw [pumpStep_fetch_oor_eq cfg tp s r hd hp ho]
              exact hmono
            · rw [pumpStep_fetch_err_eq cfg tp s r e hd hp ho he]
              exact hmono
          · rw [pumpStep_fetch_ok_eq cfg tp s r msgs hd hp ho]
            exact hmono
  · intro s m rest hd hp
    rw [pumpStep_push_cons_eq cfg tp s m rest hd hp]
    exact ⟨rfl, rfl⟩
  · intro s fr msgs h m hm
    exact le_trans (parseFetchResult_offset_mono cfg tp s fr)
      ((parseFetchResult_ok_bounds cfg tp s fr msgs h).1 m hm)
  · intro is hwf
    have h0 : pumpInv concreteOffset (spawnPartitionConsumer cfg concreteOffset) [] :=
      ⟨le_refl concreteOffset, List.Pairwise.nil,
        fun m hm => absurd hm (List.not_mem_nil m), List.Pairwise.nil,
        fun d hd => absurd hd (List.not_mem_nil d),
        fun d hd => absurd hd (List.not_mem_nil d)⟩
    have h := pumpRun_inv cfg tp concreteOffset is
      (spawnPartitionConsumer cfg concreteOffset) [] hwf h0
    rw [List.nil_append] at h
    exact ⟨h.2.2.2.1, h.2.2.2.2.1, h.1⟩

/-- Witness for partitionConsumer_monotone_delivery: a worker spawned at
offset 10 receives one response with messages at offsets 10 and 11 and
pushes both; the delivered offsets are strictly increasing, both at least
10, and the final worker offset is 12, at least 10. -/
theorem partitionConsumer_monotone_delivery_witness :
    (deliveredMessages (pumpRun ⟨⟨1, 1024, 4096⟩, ⟨100⟩, ⟨true⟩, 250⟩ ⟨"t", 0⟩
        (spawnPartitionConsumer ⟨⟨1, 1024, 4096⟩, ⟨100⟩, ⟨true⟩, 250⟩ 10)
        [.fetchResult ⟨some ⟨[(⟨"t", 0⟩, ⟨.noError, 20,
            ⟨[⟨[⟨10, [], []⟩, ⟨11, [], []⟩]⟩], false⟩⟩)]⟩, none⟩,
          .pushMessage, .pushMessage]).2).Pairwise (fun a b => a.Offset < b.Offset) ∧
    (∀ d ∈ deliveredMessages (pumpRun ⟨⟨1, 1024, 4096⟩, ⟨100⟩, ⟨true⟩, 250⟩ ⟨"t", 0⟩
        (spawnPartitionConsumer ⟨⟨1, 1024, 4096⟩, ⟨100⟩, ⟨true⟩, 250⟩ 10)
        [.fetchResult ⟨some ⟨[(⟨"t", 0⟩, ⟨.noError, 20,
            ⟨[⟨[⟨10, [], []⟩, ⟨11, [], []⟩]⟩], false⟩⟩)]⟩, none⟩,
          .pushMessage, .pushMessage]).2, (10:Int) ≤ d.Offset) ∧
    (10:Int) ≤ (pumpRun ⟨⟨1, 1024, 4096⟩, ⟨100⟩, ⟨true⟩, 250⟩ ⟨"t", 0⟩
        (spawnPartitionConsumer ⟨⟨1, 1024, 4096⟩, ⟨100⟩, ⟨true⟩, 250⟩ 10)
        [.fetchResult ⟨some ⟨[(⟨"t", 0⟩, ⟨.noError, 20,
            ⟨[⟨[⟨10, [], []⟩, ⟨11, [], []⟩]⟩], false⟩⟩)]⟩, none⟩,
          .pushMessage, .pushMessage]).1.pcs.offset := by
  exact (partitionConsumer_monotone_delivery ⟨⟨1, 1024, 4096⟩, ⟨100⟩, ⟨true⟩, 250⟩
    ⟨"t", 0⟩ 10).2.2.2
    [.fetchResult ⟨some ⟨[(⟨"t", 0⟩, ⟨.noError, 20,
        ⟨[⟨[⟨10, [], []⟩, ⟨11, [], []⟩]⟩], false⟩⟩)]⟩, none⟩,
      .pushMessage, .pushMessage]
    (by
      intro i hi
      fin_cases hi
      · show List.Pairwise (fun a b => a.Offset < b.Offset)
          (MessageSet.allMessages ⟨[⟨[⟨10, [], []⟩, ⟨11, [], []⟩]⟩], false⟩)
        decide
      · trivial
      · trivial)

/-- Wrapping is the identity on the int32 range. -/
theorem wrap32_eq_self (x : Int) (h1 : -(2 ^ 31) ≤ x) (h2 : x < 2 ^ 31) :
    wrap32 x = x := by
  unfold wrap32
  rw [Int.emod_eq_of_lt (by omega) (by omega)]
  omega

/-- Under a sane configuration (0 < Default ≤ Max ≤ 2^30, so that doubling
cannot overflow int32), one parse keeps the fetch size inside
[Default, Max]. -/
theorem parseFetchResult_fetchSize_inv (cfg : ConsumerConfig) (tp : TopicPartition)
    (s : PCState) (fr : fetchResult)
    (hd : 0 < cfg.Fetch.Default) (hdm : cfg.Fetch.Default ≤ cfg.Fetch.Max)
    (hm : cfg.Fetch.Max ≤ 2 ^ 30)
    (hlo : cfg.Fetch.Default ≤ s.fetchSize) (hhi : s.fetchSize ≤ cfg.Fetch.Max) :
    cfg.Fetch.Default ≤ (parseFetchResult cfg tp s fr).state.fetchSize ∧
    (parseFetchResult cfg tp s fr).state.fetchSize ≤ cfg.Fetch.Max := by
  rcases hE : fr.Err with _ | e
  · rcases hR : fr.Response with _ | response
    · rw [parse_noResponse_eq cfg tp s fr hE hR]
      exact ⟨hlo, hhi⟩
    · rcases hB : response.GetBlock tp with _ | block
      · rw [parse_noBlock_eq cfg tp s fr response hE hR hB]
        exact ⟨hlo, hhi⟩
      · by_cases h1 : block.Err = KErr.noError
        · by_cases h2 : block.MsgSet.Messages = []
          · by_cases h3 : block.MsgSet.PartialTrailingMessage = true
            · by_cases h4 : cfg.Fetch.Max > 0 ∧ s.fetchSize = cfg.Fetch.Max
              · rw [parse_empty_skip_eq cfg tp s fr response block hE hR hB h1 h2 h3 h4]
                exact ⟨hlo, hhi⟩
              · rw [parse_empty_double_eq cfg tp s fr response block hE hR hB h1 h2 h3 h4]
                have hmax0 : 0 < cfg.Fetch.Max := lt_of_lt_of_le hd hdm
                have hne : s.fetchSize ≠ cfg.Fetch.Max := fun hc => h4 ⟨hmax0, hc⟩
                have hlt : s.fetchSize < cfg.Fetch.Max := lt_of_le_of_ne hhi hne
                have hw : wrap32 (2 * s.fetchSize) = 2 * s.fetchSize :=
                  wrap32_eq_self (2 * s.fetchSize) (by omega) (by omega)
                show cfg.Fetch.Default ≤
                    (if cfg.Fetch.Max > 0 ∧ wrap32 (2 * s.fetchSize) > cfg.Fetch.Max
                      then cfg.Fetch.Max else wrap32 (2 * s.fetchSize)) ∧
                  (if cfg.Fetch.Max > 0 ∧ wrap32 (2 * s.fetchSize) > cfg.Fetch.Max
                    then cfg.Fetch.Max else wrap32 (2 * s.fetchSize)) ≤ cfg.Fetch.Max
                rw [hw]
                split
                · exact ⟨hdm, le_refl _⟩
                · constructor
                  · omega
                  · omega
            · have h3' : block.MsgSet.PartialTrailingMessage = false :=
                Bool.not_eq_true _ ▸ eq_false_of_ne_true h3
              rw [parse_empty_noflag_eq cfg tp s fr response block hE hR hB h1 h2 h3']
              exact ⟨hlo, hhi⟩
          · rw [parse_nonempty_eq cfg tp s fr response block hE hR hB h1 h2]
            split
            · exact ⟨le_refl _, hdm⟩
            · exact ⟨le_refl _, hdm⟩
        · rw [parse_blockErr_eq cfg tp s fr response block hE hR hB h1]
          exact ⟨hlo, hhi⟩
  · rw [parse_err_eq cfg tp s fr e hE]
    exact ⟨hlo, hhi⟩

/-- The parser changes the fetch size only by resetting it to Default on a
non-empty message set, or by the clamped doubling on an empty message set
carrying the partial-trailing flag (when the skip branch is not taken). -/
theorem parseFetchResult_fetchSize_change (cfg : ConsumerConfig) (tp : TopicPartition)
    (s : PCState) (fr : fetchResult)
    (hne : (parseFetchResult cfg tp s fr).state.fetchSize ≠ s.fetchSize) :
    (parseFetchResult cfg tp s fr).state.fetchSize = cfg.Fetch.Default ∨
    (∃ response block, fr.Err = none ∧ fr.Response = some response ∧
      response.GetBlock tp = some block ∧ block.Err = .noError ∧
      block.MsgSet.Messages = [] ∧ block.MsgSet.PartialTrailingMessage = true ∧
      ¬(cfg.Fetch.Max > 0 ∧ s.fetchSize = cfg.Fetch.Max) ∧
      (parseFetchResult cfg tp s fr).state.fetchSize =
        (if cfg.Fetch.Max > 0 ∧ wrap32 (2 * s.fetchSize) > cfg.Fetch.Max
          then cfg.Fetch.Max else wrap32 (2 * s.fetchSize))) := by
  rcases hE : fr.Err with _ | e
  · rcases hR : fr.Response with _ | response
    · rw [parse_noResponse_eq cfg tp s fr hE hR] at hne
      exact absurd rfl hne
    · rcases hB : response.GetBlock tp with _ | block
      · rw [parse_noBlock_eq cfg tp s fr response hE hR hB] at hne
        exact absurd rfl hne
      · by_cases h1 : block.Err = KErr.noError
        · by_cases h2 : block.MsgSet.Messages = []
          · by_cases h3 : block.MsgSet.PartialTrailingMessage = true
            · by_cases h4 : cfg.Fetch.Max > 0 ∧ s.fetchSize = cfg.Fetch.Max
              · rw [parse_empty_skip_eq cfg tp s fr response block hE hR hB h1 h2 h3 h4] at hne
                exact absurd rfl hne
              · refine Or.inr ⟨response, block, rfl, rfl, hB, h1, h2, h3, h4, ?_⟩
                rw [parse_empty_double_eq cfg tp s fr response block hE hR hB h1 h2 h3 h4]
            · have h3' : block.MsgSet.PartialTrailingMessage = false :=
                Bool.not_eq_true _ ▸ eq_false_of_ne_true h3
              rw [parse_empty_noflag_eq cfg tp s fr response block hE hR hB h1 h2 h3'] at hne
              exact absurd rfl hne
          · refine Or.inl ?_
            rw [parse_nonempty_eq cfg tp s fr response block hE hR hB h1 h2]
            split
            · rfl
            · rfl
        · rw [parse_blockErr_eq cfg tp s fr response block hE hR hB h1] at hne
          exact absurd rfl hne
  · rw [parse_err_eq cfg tp s fr e hE] at hne
    exact absurd rfl hne

/-- One pump step keeps the fetch size inside [Default, Max] under a sane
configuration. -/
theorem pumpStep_fetchSize_inv (cfg : ConsumerConfig) (tp : TopicPartition)
    (s : PumpState) (i : PumpInput)
    (hd : 0 < cfg.Fetch.Default) (hdm : cfg.Fetch.Default ≤ cfg.Fetch.Max)
    (hm : cfg.Fetch.Max ≤ 2 ^ 30)
    (hlo : cfg.Fetch.Default ≤ s.pcs.fetchSize) (hhi : s.pcs.fetchSize ≤ cfg.Fetch.Max) :
    cfg.Fetch.Default ≤ (pumpStep cfg tp s i).1.pcs.fetchSize ∧
    (pumpStep cfg tp s i).1.pcs.fetchSize ≤ cfg.Fetch.Max := by
  cases hdone : s.donePump with
  | true =>
    rw [pumpStep_done cfg tp s i hdone]
    exact ⟨hlo, hhi⟩
  | false =>
    cases i with
    | assignment b =>
      rw [pumpStep_assignment_eq cfg tp s b hdone]
      exact ⟨hlo, hhi⟩
    | retryTimer =>
      rw [pumpStep_retryTimer_eq cfg tp s hdone]
      exact ⟨hlo, hhi⟩
    | sendFetch =>
      rw [pumpStep_sendFetch_eq cfg tp s hdone]
      exact ⟨hlo, hhi⟩
    | closing =>
      rw [pumpStep_closing_eq cfg tp s hdone]
      exact ⟨hlo, hhi⟩
    | pushMessage =>
      cases hp : s.pending with
      | nil =>
        rw [pumpStep_push_nil_eq cfg tp s hdone hp]
        exact ⟨hlo, hhi⟩
      | cons m rest =>
        rw [pumpStep_push_cons_eq cfg tp s m rest hdone hp]
        exact ⟨hlo, hhi⟩
    | fetchResult r =>
      have hparse := parseFetchResult_fetchSize_inv cfg tp s.pcs r hd hdm hm hlo hhi
      cases hp : s.pending with
      | cons m rest =>
        rw [pumpStep_fetch_busy_eq cfg tp s r m rest hdone hp]
        exact ⟨hlo, hhi⟩
      | nil =>
        rcases ho : (parseFetchResult cfg tp s.pcs r).out with e | msgs
        · by_cases he : e = KErr.offsetOutOfRange
          · subst he
            rw [pumpStep_fetch_oor_eq cfg tp s r hdone hp ho]
            exact hparse
          · rw [pumpStep_fetch_err_eq cfg tp s r e hdone hp ho he]
            exact hparse
        · rw [pumpStep_fetch_ok_eq cfg tp s r msgs hdone hp ho]
          exact hparse

/-- Whole runs keep the fetch size inside [Default, Max] under a sane
configuration. -/
theorem pumpRun_fetchSize_inv (cfg : ConsumerConfig) (tp : TopicPartition)
    (hd : 0 < cfg.Fetch.Default) (hdm : cfg.Fetch.Default ≤ cfg.Fetch.Max)
    (hm : cfg.Fetch.Max ≤ 2 ^ 30) :
    ∀ (is : List PumpInput) (s : PumpState),
      cfg.Fetch.Default ≤ s.pcs.fetchSize → s.pcs.fetchSize ≤ cfg.Fetch.Max →
      cfg.Fetch.Default ≤ (pumpRun cfg tp s is).1.pcs.fetchSize ∧
      (pumpRun cfg tp s is).1.pcs.fetchSize ≤ cfg.Fetch.Max := by
  intro is
  induction is with
  | nil =>
    intro s hlo hhi
    exact ⟨hlo, hhi⟩
  | cons i is ih =>
    intro s hlo hhi
    have hstep := pumpStep_fetchSize_inv cfg tp s i hd hdm hm hlo hhi
    exact ih (pumpStep cfg tp s i).1 hstep.1 hstep.2

/-- C3 counterexample: under the validated configuration Default = 2^30,
Max = 2^31 - 1 (Max > 0 and Default ≤ Max), a worker starts at fetchSize
2^30 and a single empty partial-trailing response doubles the int32 fetch
size to 2^31, which wraps to -2^31 and is not clamped (negative is not
greater than Max); the fetch size leaves [Default, Max], so the claim as
stated is false. -/
theorem fetchSize_bounds_counterexample :
    (0:Int) < 2 ^ 30 ∧ (2:Int) ^ 30 ≤ 2 ^ 31 - 1 ∧ (0:Int) < 2 ^ 31 - 1 ∧
    (spawnPartitionConsumer ⟨⟨1, 2 ^ 30, 2 ^ 31 - 1⟩, ⟨100⟩, ⟨true⟩, 250⟩ 0).pcs.fetchSize
      = 2 ^ 30 ∧
    (pumpRun ⟨⟨1, 2 ^ 30, 2 ^ 31 - 1⟩, ⟨100⟩, ⟨true⟩, 250⟩ ⟨"t", 0⟩
        (spawnPartitionConsumer ⟨⟨1, 2 ^ 30, 2 ^ 31 - 1⟩, ⟨100⟩, ⟨true⟩, 250⟩ 0)
        [.fetchResult ⟨some ⟨[(⟨"t", 0⟩, ⟨.noError, 0, ⟨[], true⟩⟩)]⟩, none⟩]).1.pcs.fetchSize
      = -(2 ^ 31) ∧
    ¬((2:Int) ^ 30 ≤ -(2 ^ 31) ∧ -(2 ^ 31) ≤ 2 ^ 31 - 1) := by
  decide

/-- C3 amended: provided additionally that 0 < Default ≤ Max ≤ 2^30 (so
that int32 doubling cannot overflow), the fetch size starts at Default and
stays within [Default, Max] over every pump run; it is reset to exactly
Default on every response with a non-empty message set; it changes at all
only by that reset or on an empty message set carrying the
partial-trailing flag; and on such a doubling step below Max it becomes
min (2 * fetchSize) Max. -/
theorem fetchSize_bounds_amended (cfg : ConsumerConfig) (tp : TopicPartition)
    (hd : 0 < cfg.Fetch.Default) (hdm : cfg.Fetch.Default ≤ cfg.Fetch.Max)
    (hm : cfg.Fetch.Max ≤ 2 ^ 30) :
    (∀ offset, (spawnPartitionConsumer cfg offset).pcs.fetchSize = cfg.Fetch.Default) ∧
    (∀ (is : List PumpInput) (offset : Int),
      cfg.Fetch.Default ≤
        (pumpRun cfg tp (spawnPartitionConsumer cfg offset) is).1.pcs.fetchSize ∧
      (pumpRun cfg tp (spawnPartitionConsumer cfg offset) is).1.pcs.fetchSize ≤
        cfg.Fetch.Max) ∧
    (∀ (s : PCState) (fr : fetchResult) (response : FetchResponse) (block : FetchBlock),
      fr.Err = none → fr.Response = some response → response.GetBlock tp = some block →
      block.Err = .noError → block.MsgSet.Messages ≠ [] →
      (parseFetchResult cfg tp s fr).state.fetchSize = cfg.Fetch.Default) ∧
    (∀ (s : PCState) (fr : fetchResult),
      (parseFetchResult cfg tp s fr).state.fetchSize ≠ s.fetchSize →
      (parseFetchResult cfg tp s fr).state.fetchSize = cfg.Fetch.Default ∨
      ∃ response block, fr.Err = none ∧ fr.Response = some response ∧
        response.GetBlock tp = some block ∧ block.Err = .noError ∧
        block.MsgSet.Messages = [] ∧ block.MsgSet.PartialTrailingMessage = true) ∧
    (∀ (s : PCState) (fr : fetchResult) (response : FetchResponse) (block : FetchBlock),
      fr.Err = none → fr.Response = some response → response.GetBlock tp = some block →
      block.Err = .noError → block.MsgSet.Messages = [] →
      block.MsgSet.PartialTrailingMessage = true →
      cfg.Fetch.Default ≤ s.fetchSize → s.fetchSize < cfg.Fetch.Max →
      (parseFetchResult cfg tp s fr).state.fetchSize = min (2 * s.fetchSize) cfg.Fetch.Max) := by
  refine ⟨fun offset => rfl, ?_, ?_, ?_, ?_⟩
  · intro is offset
    exact pumpRun_fetchSize_inv cfg tp hd hdm hm is (spawnPartitionConsumer cfg offset)
      (le_refl _) hdm
  · intro s fr response block hE hR hB h1 h2
    rw [parse_nonempty_eq cfg tp s fr response block hE hR hB h1 h2]
    split
    · rfl
    · rfl
  · intro s fr hne
    rcases parseFetchResult_fetchSize_change cfg tp s fr hne with h | ⟨response, block,
      hE, hR, hB, h1, h2, h3, -, -⟩
    · exact Or.inl h
    · exact Or.inr ⟨response, block, hE, hR, hB, h1, h2, h3⟩
  · intro s fr response block hE hR hB h1 h2 h3 hlo hlt
    have hmax0 : 0 < cfg.Fetch.Max := lt_of_lt_of_le hd hdm
    have h4 : ¬(cfg.Fetch.Max > 0 ∧ s.fetchSize = cfg.Fetch.Max) := by
      rintro ⟨-, hc⟩
      omega
    rw [parse_empty_double_eq cfg tp s fr response block hE hR hB h1 h2 h3 h4]
    have hw : wrap32 (2 * s.fetchSize) = 2 * s.fetchSize :=
      wrap32_eq_self (2 * s.fetchSize) (by omega) (by omega)
    show (if cfg.Fetch.Max > 0 ∧ wrap32 (2 * s.fetchSize) > cfg.Fetch.Max
        then cfg.Fetch.Max else wrap32 (2 * s.fetchSize)) = min (2 * s.fetchSize) cfg.Fetch.Max
    rw [hw]
    rcases le_or_lt (2 * s.fetchSize) cfg.Fetch.Max with hle | hgt
    · rw [if_neg (by omega), min_eq_left hle]
    · rw [if_pos ⟨hmax0, hgt⟩, min_eq_right (le_of_lt hgt)]

/-- Witness for fetchSize_bounds_amended: with Default 1024, Max 4096, two
empty partial-trailing responses leave the fetch size (4096) inside
[1024, 4096], and a single doubling step from 1024 gives
min 2048 4096 = 2048. -/
theorem fetchSize_bounds_amended_witness :
    ((1024:Int) ≤ (pumpRun ⟨⟨1, 1024, 4096⟩, ⟨100⟩, ⟨true⟩, 250⟩ ⟨"t", 0⟩
        (spawnPartitionConsumer ⟨⟨1, 1024, 4096⟩, ⟨100⟩, ⟨true⟩, 250⟩ 0)
        (List.replicate 2 (.fetchResult
          ⟨some ⟨[(⟨"t", 0⟩, ⟨.noError, 0, ⟨[], true⟩⟩)]⟩, none⟩))).1.pcs.fetchSize ∧
      (pumpRun ⟨⟨1, 1024, 4096⟩, ⟨100⟩, ⟨true⟩, 250⟩ ⟨"t", 0⟩
        (spawnPartitionConsumer ⟨⟨1, 1024, 4096⟩, ⟨100⟩, ⟨true⟩, 250⟩ 0)
        (List.replicate 2 (.fetchResult
          ⟨some ⟨[(⟨"t", 0⟩, ⟨.noError, 0, ⟨[], true⟩⟩)]⟩, none⟩))).1.pcs.fetchSize ≤ 4096) ∧
    (parseFetchResult ⟨⟨1, 1024, 4096⟩, ⟨100⟩, ⟨true⟩, 250⟩ ⟨"t", 0⟩ ⟨0, 1024, 0⟩
        ⟨some ⟨[(⟨"t", 0⟩, ⟨.noError, 0, ⟨[], true⟩⟩)]⟩, none⟩).state.fetchSize =
      min (2 * 1024) 4096 := by
  have h := fetchSize_bounds_amended ⟨⟨1, 1024, 4096⟩, ⟨100⟩, ⟨true⟩, 250⟩ ⟨"t", 0⟩
    (by decide) (by decide) (by decide)
  refine ⟨h.2.1 (List.replicate 2 (.fetchResult
      ⟨some ⟨[(⟨"t", 0⟩, ⟨.noError, 0, ⟨[], true⟩⟩)]⟩, none⟩)) 0, ?_⟩
  exact h.2.2.2.2 ⟨0, 1024, 0⟩ ⟨some ⟨[(⟨"t", 0⟩, ⟨.noError, 0, ⟨[], true⟩⟩)]⟩, none⟩
    ⟨[(⟨"t", 0⟩, ⟨.noError, 0, ⟨[], true⟩⟩)]⟩ ⟨.noError, 0, ⟨[], true⟩⟩
    rfl rfl (by decide) rfl rfl rfl (by decide) (by decide)

set_option maxRecDepth 10000 in
/-- C10: when Fetch.Max is zero or negative, parseFetchResult never offers
ErrMessageTooLarge to the errors channel (its reported list is always
empty), and every empty partial-trailing response doubles the int32 fetch
size with no clamp (pure wrap-around). Concretely, with Max = 0 and
Default = 32768, sixteen such responses drive the fetch size from 32768 to
2^31, which wraps to -2^31 < 0, a seventeenth makes it 0, and the next
fetch request the pump sends carries maxBytes = -2^31. -/
theorem fetchSize_unclamped_overflow (cfg : ConsumerConfig) (tp : TopicPartition)
    (hmax : cfg.Fetch.Max ≤ 0) :
    (∀ (s : PCState) (fr : fetchResult), (parseFetchResult cfg tp s fr).reported = []) ∧
    (∀ (s : PCState) (fr : fetchResult) (response : FetchResponse) (block : FetchBlock),
      fr.Err = none → fr.Response = some response → response.GetBlock tp = some block →
      block.Err = .noError → block.MsgSet.Messages = [] →
      block.MsgSet.PartialTrailingMessage = true →
      parseFetchResult cfg tp s fr =
        ⟨{ s with fetchSize := wrap32 (2 * s.fetchSize) }, [], .ok []⟩) ∧
    ((pumpRun ⟨⟨1, 32768, 0⟩, ⟨100⟩, ⟨true⟩, 250⟩ ⟨"t", 0⟩
        (spawnPartitionConsumer ⟨⟨1, 32768, 0⟩, ⟨100⟩, ⟨true⟩, 250⟩ 0)
        (List.replicate 16 (.fetchResult
          ⟨some ⟨[(⟨"t", 0⟩, ⟨.noError, 0, ⟨[], true⟩⟩)]⟩, none⟩))).1.pcs.fetchSize
        = -(2 ^ 31) ∧
      (-(2 ^ 31) : Int) < 0 ∧
      (pumpRun ⟨⟨1, 32768, 0⟩, ⟨100⟩, ⟨true⟩, 250⟩ ⟨"t", 0⟩
        (spawnPartitionConsumer ⟨⟨1, 32768, 0⟩, ⟨100⟩, ⟨true⟩, 250⟩ 0)
        (List.replicate 17 (.fetchResult
          ⟨some ⟨[(⟨"t", 0⟩, ⟨.noError, 0, ⟨[], true⟩⟩)]⟩, none⟩))).1.pcs.fetchSize = 0 ∧
      (pumpRun ⟨⟨1, 32768, 0⟩, ⟨100⟩, ⟨true⟩, 250⟩ ⟨"t", 0⟩
        (spawnPartitionConsumer ⟨⟨1, 32768, 0⟩, ⟨100⟩, ⟨true⟩, 250⟩ 0)
        (List.replicate 16 (.fetchResult
          ⟨some ⟨[(⟨"t", 0⟩, ⟨.noError, 0, ⟨[], true⟩⟩)]⟩, none⟩)
          ++ [.sendFetch])).2 = [.sendFetch "t" 0 0 (-(2 ^ 31)) 0]) := by
  refine ⟨?_, ?_, by decide⟩
  · intro s fr
    rcases hE : fr.Err with _ | e
    · rcases hR : fr.Response with _ | response
      · rw [parse_noResponse_eq cfg tp s fr hE hR]
      · rcases hB : response.GetBlock tp with _ | block
        · rw [parse_noBlock_eq cfg tp s fr response hE hR hB]
        · by_cases h1 : block.Err = KErr.noError
          · by_cases h2 : block.MsgSet.Messages = []
            · by_cases h3 : block.MsgSet.PartialTrailingMessage = true
              · by_cases h4 : cfg.Fetch.Max > 0 ∧ s.fetchSize = cfg.Fetch.Max
                · exact absurd h4.1 (by omega)
                · rw [parse_empty_double_eq cfg tp s fr response block hE hR hB h1 h2 h3 h4]
              · have h3' : block.MsgSet.PartialTrailingMessage = false :=
                  Bool.not_eq_true _ ▸ eq_false_of_ne_true h3
                rw [parse_empty_noflag_eq cfg tp s fr response block hE hR hB h1 h2 h3']
            · rw [parse_nonempty_eq cfg tp s fr response block hE hR hB h1 h2]
              split
              · rfl
              · rfl
          · rw [parse_blockErr_eq cfg tp s fr response block hE hR hB h1]
    · rw [parse_err_eq cfg tp s fr e hE]
  · intro s fr response block hE hR hB h1 h2 h3
    have h4 : ¬(cfg.Fetch.Max > 0 ∧ s.fetchSize = cfg.Fetch.Max) := by
      rintro ⟨hc, -⟩
      omega
    rw [parse_empty_double_eq cfg tp s fr response block hE hR hB h1 h2 h3 h4]
    rw [if_neg (by omega : ¬(cfg.Fetch.Max > 0 ∧
      wrap32 (2 * s.fetchSize) > cfg.Fetch.Max))]

/-- Witness for fetchSize_unclamped_overflow: with Max = 0, a doubling step
from fetchSize 32768 yields 65536 with nothing reported, via the theorem's
universal clauses at a concrete input. -/
theorem fetchSize_unclamped_overflow_witness :
    parseFetchResult ⟨⟨1, 32768, 0⟩, ⟨100⟩, ⟨true⟩, 250⟩ ⟨"t", 0⟩ ⟨0, 32768, 0⟩
        ⟨some ⟨[(⟨"t", 0⟩, ⟨.noError, 0, ⟨[], true⟩⟩)]⟩, none⟩ =
      ⟨⟨0, 65536, 0⟩, [], .ok []⟩ ∧
    (parseFetchResult ⟨⟨1, 32768, 0⟩, ⟨100⟩, ⟨true⟩, 250⟩ ⟨"t", 0⟩ ⟨5, 1, 2⟩
        ⟨none, some (.other "io")⟩).reported = [] := by
  have h := fetchSize_unclamped_overflow ⟨⟨1, 32768, 0⟩, ⟨100⟩, ⟨true⟩, 250⟩ ⟨"t", 0⟩
    (by decide)
  constructor
  · rw [h.2.1 ⟨0, 32768, 0⟩ ⟨some ⟨[(⟨"t", 0⟩, ⟨.noError, 0, ⟨[], true⟩⟩)]⟩, none⟩
      ⟨[(⟨"t", 0⟩, ⟨.noError, 0, ⟨[], true⟩⟩)]⟩ ⟨.noError, 0, ⟨[], true⟩⟩
      rfl rfl (by decide) rfl rfl rfl]
    rfl
  · exact h.1 ⟨5, 1, 2⟩ ⟨none, some (.other "io")⟩

/-- A fetch request queued by a partition consumer with the broker consumer
(Go struct fetchRequest; the reply channel is left out — replies are
returned positionally, one per request). -/
structure brokerFetchRequest where
  Topic : String
  Partition : Int
  Offset : Int
  MaxBytes : Int
  Lag : Int
deriving DecidableEq, Repr

/-- Mutable state of the executeBatches goroutine: the last connection
error and its timestamp (lastErr, lastErrTime). -/
structure BCState where
  lastErr : Option KErr
  lastErrTime : Int
deriving DecidableEq, Repr

/-- The wire FetchRequest assembled from a batch: MinBytes and MaxWaitTime
from the configuration and one (topic, partition, offset, maxBytes) block
added per queued request. -/
structure FetchRequestWire where
  MinBytes : Int
  MaxWaitTime : Int
  Blocks : List (String × Int × Int × Int)
deriving DecidableEq, Repr

/-- Result of one iteration of executeBatches on one batch. -/
structure BatchOutcome where
  state : BCState
  replies : List fetchResult
  issued : Option FetchRequestWire
  connClosed : Bool
deriving DecidableEq, Repr

/-- One iteration of brokerConsumer.executeBatches on a received batch. If
the time since the last connection error is less than the retry backoff,
every request is answered {nil, lastErr} and nothing is sent on the
connection (circuit breaker). Otherwise a single batched FetchRequest with
one block per request is issued (the connection outcome is the oracle
`fetchOutcome`); on transport error the error and its time are recorded,
the connection is closed, and every request is answered {nil, err}; on
success every request is answered {response, nil} with the shared
response. -/
def executeBatch (cfg : ConsumerConfig) (now : Int) (st : BCState)
    (batch : List brokerFetchRequest) (fetchOutcome : Except KErr FetchResponse) :
    BatchOutcome :=
  if now - st.lastErrTime < cfg.Retry.Backoff then
    { state := st
      replies := batch.map fun _ => ⟨none, st.lastErr⟩
      issued := none
      connClosed := false }
  else
    let req : FetchRequestWire :=
      { MinBytes := cfg.Fetch.Min
        MaxWaitTime := cfg.MaxWaitTime
        Blocks := batch.map fun fr => (fr.Topic, fr.Partition, fr.Offset, fr.MaxBytes) }
    match fetchOutcome with
    | .error e =>
      { state := { lastErr := some e, lastErrTime := now }
        replies := batch.map fun _ => ⟨none, some e⟩
        issued := some req
        connClosed := true }
    | .ok res =>
      { state := { st with lastErr := none }
        replies := batch.map fun _ => ⟨some res, none⟩
        issued := some req
        connClosed := false }

/-- C6: every request in a batch receives exactly one reply, positionally;
inside the retry backoff window every reply is {nil, lastErr} and no fetch
is issued on the connection; outside it, a single batched request carrying
one block per queued request is issued, and on transport error the
connection is closed, the error is recorded with its time and every reply
is {nil, err}, while on success every reply is {response, nil} with the
same shared response and the recorded error is cleared. -/
theorem executeBatches_spec (cfg : ConsumerConfig) (now : Int) (st : BCState)
    (batch : List brokerFetchRequest) (fetchOutcome : Except KErr FetchResponse) :
    (executeBatch cfg now st batch fetchOutcome).replies.length = batch.length ∧
    (now - st.lastErrTime < cfg.Retry.Backoff →
      executeBatch cfg now st batch fetchOutcome =
        { state := st
          replies := batch.map fun _ => ⟨none, st.lastErr⟩
          issued := none
          connClosed := false }) ∧
    (¬(now - st.lastErrTime < cfg.Retry.Backoff) → ∀ e, fetchOutcome = .error e →
      executeBatch cfg now st batch fetchOutcome =
        { state := { lastErr := some e, lastErrTime := now }
          replies := batch.map fun _ => ⟨none, some e⟩
          issued := some
            { MinBytes := cfg.Fetch.Min
              MaxWaitTime := cfg.MaxWaitTime
              Blocks := batch.map fun fr => (fr.Topic, fr.Partition, fr.Offset, fr.MaxBytes) }
          connClosed := true }) ∧
    (¬(now - st.lastErrTime < cfg.Retry.Backoff) → ∀ res, fetchOutcome = .ok res →
      executeBatch cfg now st batch fetchOutcome =
        { state := { st with lastErr := none }
          replies := batch.map fun _ => ⟨some res, none⟩
          issued := some
            { MinBytes := cfg.Fetch.Min
              MaxWaitTime := cfg.MaxWaitTime
              Blocks := batch.map fun fr => (fr.Topic, fr.Partition, fr.Offset, fr.MaxBytes) }
          connClosed := false }) ∧
    (∀ req, (executeBatch cfg now st batch fetchOutcome).issued = some req →
      req.Blocks.length = batch.length) := by
  refine ⟨?_, ?_, ?_, ?_, ?_⟩
  · unfold executeBatch
    split
    · simp
    · cases fetchOutcome with
      | error e => simp
      | ok res => simp
  · intro h
    simp [executeBatch, h]
  · intro h e he
    simp [executeBatch, h, he]
  · intro h res hres
    simp [executeBatch, h, hres]
  · intro req hreq
    unfold executeBatch at hreq
    split at hreq
    · simp at hreq
    · cases fetchOutcome with
      | error e =>
        simp at hreq
        rw [← hreq]
        simp
      | ok res =>
        simp at hreq
        rw [← hreq]
        simp

/-- Witness for executeBatches_spec: a two-request batch inside the backoff
window is answered twice from the recorded error with no fetch issued, and
the same batch outside the window with a successful fetch is answered
twice with the shared response. -/
theorem executeBatches_spec_witness :
    executeBatch ⟨⟨1, 1024, 4096⟩, ⟨100⟩, ⟨true⟩, 250⟩ 50 ⟨some (.other "io"), 0⟩
        [⟨"t", 0, 5, 1024, 0⟩, ⟨"t", 1, 9, 2048, 0⟩] (.ok ⟨[]⟩) =
      { state := ⟨some (.other "io"), 0⟩
        replies := [⟨none, some (.other "io")⟩, ⟨none, some (.other "io")⟩]
        issued := none
        connClosed := false } ∧
    executeBatch ⟨⟨1, 1024, 4096⟩, ⟨100⟩, ⟨true⟩, 250⟩ 200 ⟨some (.other "io"), 0⟩
        [⟨"t", 0, 5, 1024, 0⟩, ⟨"t", 1, 9, 2048, 0⟩] (.ok ⟨[]⟩) =
      { state := ⟨none, 0⟩
        replies := [⟨some ⟨[]⟩, none⟩, ⟨some ⟨[]⟩, none⟩]
        issued := some ⟨1, 250, [("t", 0, 5, 1024), ("t", 1, 9, 2048)]⟩
        connClosed := false } := by
  have h1 := (executeBatches_spec ⟨⟨1, 1024, 4096⟩, ⟨100⟩, ⟨true⟩, 250⟩ 50
    ⟨some (.other "io"), 0⟩ [⟨"t", 0, 5, 1024, 0⟩, ⟨"t", 1, 9, 2048, 0⟩] (.ok ⟨[]⟩)).2.1
    (by decide)
  have h2 := (executeBatches_spec ⟨⟨1, 1024, 4096⟩, ⟨100⟩, ⟨true⟩, 250⟩ 200
    ⟨some (.other "io"), 0⟩ [⟨"t", 0, 5, 1024, 0⟩, ⟨"t", 1, 9, 2048, 0⟩]
    (.ok ⟨[]⟩)).2.2.2.1 (by decide) ⟨[]⟩ rfl
  exact ⟨h1, h2⟩
